import Mathlib

/-!
Shallow embedding of the `load-env` resolver (src/load-env.go) and proofs
about its specification claims.

Strings are modelled as `List Char` (`Str`).  Go maps (`map[string]string`)
are modelled as association lists with last-entry-wins lookup, which gives
the same observable lookup/override semantics as Go map assignment.
The subprocess spawner (`commandExecutor` + `cmd.Output()`) is modelled as an
injected pure function (`Runner`) from the command string and its environment
slice to either captured stdout or an error, mirroring the injectable
`commandExecutor` abstraction of the source.
Recursive string scanners use an explicit fuel argument (always instantiated
with the string length, which every scanner strictly decreases) so that all
definitions compute by structural recursion.
-/

namespace LoadEnv

abbrev Str := List Char

/-- Whitespace as used by Go `strings.TrimSpace` (`unicode.IsSpace`),
restricted to the Latin-1 range that can appear in our inputs. -/
def isSpaceGo (c : Char) : Bool :=
  c = ' ' || c = '\t' || c = '\n' || c = '\x0b' || c = '\x0c' || c = '\r' ||
  c = '\u0085' || c = ' '

/-- Whitespace class of Go `regexp` Perl class backslash-s: `[\t\n\f\r ]`. -/
def isRegexSpace (c : Char) : Bool :=
  c = '\t' || c = '\n' || c = '\x0c' || c = '\r' || c = ' '

/-- First character of an identifier in `variableExpansionRegex`: `[a-zA-Z_]`. -/
def identStartChar (c : Char) : Bool :=
  ('a' ≤ c && c ≤ 'z') || ('A' ≤ c && c ≤ 'Z') || c = '_'

/-- Subsequent identifier characters: `[a-zA-Z0-9_]`. -/
def identChar (c : Char) : Bool :=
  identStartChar c || ('0' ≤ c && c ≤ '9')

/-- `[a-zA-Z0-9_]` as used by the flag part of `gopassRegex`. -/
def isAlnumU (c : Char) : Bool := identChar c

/-- Go `strings.TrimSpace` (leading and trailing whitespace removed). -/
def trimSpace (s : Str) : Str :=
  ((s.dropWhile isSpaceGo).reverse.dropWhile isSpaceGo).reverse

/-- Split at the first occurrence of `sep`; models `strings.SplitN(line, sep, 2)`
returning the two parts when `sep` occurs (`none` when it does not). -/
def splitFirst (sep : Char) : Str → Option (Str × Str)
  | [] => none
  | c :: rest =>
    if c = sep then some ([], rest)
    else (splitFirst sep rest).map (fun p => (c :: p.1, p.2))

/-- Go `strings.TrimSuffix(s, "\n")`: remove one trailing newline if present. -/
def trimSuffixNewline (s : Str) : Str :=
  match s.getLast? with
  | some '\n' => s.dropLast
  | _ => s

/-- Fueled core of `strings.ReplaceAll` for a nonempty pattern:
leftmost, non-overlapping replacement. -/
def replaceAllGo (pat rep : Str) : Nat → Str → Str
  | 0, s => s
  | _ + 1, [] => []
  | fuel + 1, c :: rest =>
    if pat.isPrefixOf (c :: rest) && !pat.isEmpty then
      rep ++ replaceAllGo pat rep fuel ((c :: rest).drop pat.length)
    else
      c :: replaceAllGo pat rep fuel rest

/-- Go `strings.ReplaceAll(s, pat, rep)` for nonempty `pat`. -/
def replaceAllStr (pat rep s : Str) : Str :=
  replaceAllGo pat rep s.length s

/-- Go `strings.Contains` on our string model: does `pat` occur in `s`? -/
def containsSub (pat : Str) : Str → Bool
  | [] => pat.isEmpty
  | c :: rest => pat.isPrefixOf (c :: rest) || containsSub pat rest

/-- The sentinel from the source:
`literalDollarPlaceholder = "__LOAD_ENV_LITERAL_DOLLAR__"`. -/
def literalDollarPlaceholder : Str := "__LOAD_ENV_LITERAL_DOLLAR__".data

/-- The two-character sequence backslash-dollar that the source replaces by
the placeholder (`strings.ReplaceAll(value, "\$", literalDollarPlaceholder)`). -/
def escapedDollar : Str := ['\\', '$']

/-! ## Environment maps (Go `map[string]string`) -/

/-- Association list model of `map[string]string`; assignment appends and
lookup takes the most recent binding, mirroring Go map overwrite semantics. -/
abbrev EnvMap := List (String × String)

/-- Lookup of the most recently written binding for `k`. -/
def lookupEnv : EnvMap → String → Option String
  | [], _ => none
  | (k', v) :: rest, k =>
    match lookupEnv rest k with
    | some v' => some v'
    | none => if k' = k then some v else none

/-- Go map assignment `m[k] = v`. -/
def insertEnv (m : EnvMap) (k v : String) : EnvMap := m ++ [(k, v)]

/-- `mergeMaps(m₁, m₂)` from the source: keys of `m₂` override keys of `m₁`. -/
def mergeMaps (m₁ m₂ : EnvMap) : EnvMap := m₁ ++ m₂

/-- Does the map bind key `k`? -/
def hasKey (m : EnvMap) (k : String) : Bool := (lookupEnv m k).isSome

/-- The key set of the map (each key once), as Go `for k := range m`. -/
def mapKeys (m : EnvMap) : List String := (m.map Prod.fst).dedup

/-- The alphabetically sorted key list produced inside `mapToSlice`
(`sort.Strings(keys)`). -/
def sortedKeys (m : EnvMap) : List String :=
  List.insertionSort (fun a b : String => a ≤ b) (mapKeys m)

/-- `mapToSlice`: the `KEY=VALUE` slice in sorted key order. -/
def mapToSlice (m : EnvMap) : List String :=
  (sortedKeys m).map (fun k => k ++ "=" ++ (lookupEnv m k).getD "")

/-! ## Variable reference expansion (`variableExpansionRegex`) -/

/-- Longest prefix of identifier characters together with the rest. -/
def takeIdent : Str → Str × Str
  | [] => ([], [])
  | c :: rest =>
    if identChar c then
      let p := takeIdent rest
      (c :: p.1, p.2)
    else ([], c :: rest)

/-- Match of `variableExpansionRegex` right after a `$`:
either `NAME` (group 1) or `{NAME}` (group 2); returns the name and the
text after the match. -/
def matchVarRef : Str → Option (Str × Str)
  | [] => none
  | c :: rest =>
    if identStartChar c then
      let p := takeIdent rest
      some (c :: p.1, p.2)
    else if c = '{' then
      match rest with
      | [] => none
      | d :: rest2 =>
        if identStartChar d then
          let p := takeIdent rest2
          match p.2 with
          | '}' :: after => some (d :: p.1, after)
          | _ => none
        else none
    else none

/-- Fueled scanner of `expandVarsInString`
(`variableExpansionRegex.ReplaceAllStringFunc`): each `$NAME` / `${NAME}`
is replaced by its value in the lookup map, or by the empty string when the
name is absent.  The output of a replacement is never rescanned. -/
def expandVarsGo (env : EnvMap) : Nat → Str → Str
  | 0, s => s
  | _ + 1, [] => []
  | fuel + 1, c :: rest =>
    if c = '$' then
      match matchVarRef rest with
      | some (name, after) =>
        ((lookupEnv env (String.mk name)).getD "").data ++ expandVarsGo env fuel after
      | none => '$' :: expandVarsGo env fuel rest
    else c :: expandVarsGo env fuel rest

/-- `expandVarsInString(text, combinedEnvForLookup)` from the source. -/
def expandVarsInString (text : Str) (env : EnvMap) : Str :=
  expandVarsGo env text.length text

/-! ## Command runner and warnings -/

/-- The injected subprocess capability: the shell command string (the
source always invokes `bash -c commandString`) and the `KEY=VALUE`
environment slice handed to the subprocess, yielding captured stdout or an
execution error (nonzero exit / spawn failure) carrying its message. -/
abbrev Runner := String → List String → Except String String

/-- Non-fatal diagnostics written to stderr by the resolver. -/
inductive Warning
  | malformedLine (file : String) (lineNum : Nat) (line : String)
  | unquoteFailed (file : String) (lineNum : Nat) (value : String)
  | commandFailed (file : String) (lineNum : Nat) (key : String) (msg : String)
  | commandEmpty (file : String) (lineNum : Nat) (key : String) (command : String)
  | gopassFailed (file : String) (lineNum : Nat) (key : String) (msg : String)
  | gopassEmpty (file : String) (lineNum : Nat) (key : String) (path : String)
  deriving DecidableEq, Repr

/-- `executeCommandSubstitution`: run `commandString` through the runner with
environment `mergeMaps(inheritedEnvMap, currentEnvMap)` (converted by
`mapToSlice`), and trim one trailing newline from captured stdout. -/
def executeCommandSubstitution (runner : Runner) (commandString : String)
    (inheritedEnvMap currentEnvMap : EnvMap) : Except String String :=
  match runner commandString (mapToSlice (mergeMaps inheritedEnvMap currentEnvMap)) with
  | .error e => .error e
  | .ok out => .ok (String.mk (trimSuffixNewline out.data))

/-! ## Generic command substitution (`$[...]` and `$(...)`) -/

/-- The replacement computed for one matched command of
`applyCommandSubstitution`: execute, degrade to empty on failure, re-expand
variable references inside the output, warn when the result is empty. -/
def commandSubstOne (runner : Runner) (key file : String) (lineNum : Nat)
    (inherited initial scope : EnvMap) (cmd : Str) : Str × List Warning :=
  match executeCommandSubstitution runner (String.mk cmd) inherited initial with
  | .error msg => ([], [Warning.commandFailed file lineNum key msg])
  | .ok out =>
    let expanded := expandVarsInString out.data scope
    if expanded.isEmpty then
      (expanded, [Warning.commandEmpty file lineNum key (String.mk cmd)])
    else (expanded, [])

/-- Fueled scanner of `applyCommandSubstitution`: leftmost-first,
non-overlapping replacement of `$⟨oc⟩COMMAND⟨cc⟩` where `COMMAND` is the
nonempty text up to the first `cc` (the regexes `\$\[([^\]]+)\]` and
`\$\(([^)]+)\)` instantiated by `oc`/`cc`). -/
def cmdSubGo (oc cc : Char) (runner : Runner) (key file : String) (lineNum : Nat)
    (inherited initial scope : EnvMap) : Nat → Str → Str × List Warning
  | 0, s => (s, [])
  | _ + 1, [] => ([], [])
  | fuel + 1, c :: rest =>
    (if c = '$' then
      match rest with
      | o :: rest2 =>
        if o = oc then
          match splitFirst cc rest2 with
          | some (cmd, after) =>
            if cmd.isEmpty then
              let p := cmdSubGo oc cc runner key file lineNum inherited initial scope fuel rest
              ('$' :: p.1, p.2)
            else
              let r := commandSubstOne runner key file lineNum inherited initial scope cmd
              let p := cmdSubGo oc cc runner key file lineNum inherited initial scope fuel after
              (r.1 ++ p.1, r.2 ++ p.2)
          | none =>
            let p := cmdSubGo oc cc runner key file lineNum inherited initial scope fuel rest
            ('$' :: p.1, p.2)
        else
          let p := cmdSubGo oc cc runner key file lineNum inherited initial scope fuel rest
          ('$' :: p.1, p.2)
      | [] => (['$'], [])
    else
      let p := cmdSubGo oc cc runner key file lineNum inherited initial scope fuel rest
      (c :: p.1, p.2))

/-- `applyCommandSubstitution(value, alternateCommandRegex, ...)`:
the `$[COMMAND]` pass. -/
def applyBracketSubstitution (runner : Runner) (key file : String) (lineNum : Nat)
    (inherited initial scope : EnvMap) (value : Str) : Str × List Warning :=
  cmdSubGo '[' ']' runner key file lineNum inherited initial scope value.length value

/-- `applyCommandSubstitution(value, genericCommandRegex, ...)`:
the `$(COMMAND)` pass. -/
def applyParenSubstitution (runner : Runner) (key file : String) (lineNum : Nat)
    (inherited initial scope : EnvMap) (value : Str) : Str × List Warning :=
  cmdSubGo '(' ')' runner key file lineNum inherited initial scope value.length value

/-! ## Secret-lookup substitution (`gopassRegex`)

`gopassRegex` is
`\$\(gopass(?: show)?(?:(?:\s+[-]{1,2}[a-zA-Z0-9_]+(?:[^)\s]+)?)*)\s*([^)]+)\)`.
None of the regex pieces before the closing `\)` can contain `)`, so a match
starting at `$(gopass` exists exactly when a `)` follows with at least one
character strictly between `$(gopass` and that first `)`.  The capture is the
suffix of that segment determined by leftmost-first (Perl-style, as
implemented by Go's regexp) greedy matching with minimal backtracking; the
definitions below reproduce that capture. -/

/-- One greedy iteration of the flag group
`\s+[-]{1,2}[a-zA-Z0-9_]+(?:[^)\s]+)?`: its four greedy segments and the
remaining text. -/
structure GopassIter where
  ws : Str
  dashes : Str
  alnum : Str
  opt : Str
  deriving Repr, DecidableEq

/-- Greedy match of one flag iteration of `gopassRegex`. -/
def munchIter (s : Str) : Option (GopassIter × Str) :=
  let ws := s.takeWhile isRegexSpace
  if ws.isEmpty then none
  else
    match s.dropWhile isRegexSpace with
    | [] => none
    | c :: s2 =>
      if c = '-' then
        let two : Option (Str × Str × Str) :=
          match s2 with
          | [] => none
          | c2 :: s3 =>
            if c2 = '-' then
              let al := s3.takeWhile isAlnumU
              if al.isEmpty then none else some (['-', '-'], al, s3.drop al.length)
            else none
        let picked : Option (Str × Str × Str) :=
          match two with
          | some r => some r
          | none =>
            let al := s2.takeWhile isAlnumU
            if al.isEmpty then none else some (['-'], al, s2.drop al.length)
        match picked with
        | none => none
        | some (dashes, al, s4) =>
          let opt := s4.takeWhile (fun c => !isRegexSpace c && c ≠ ')')
          some (⟨ws, dashes, al, opt⟩, s4.drop opt.length)
      else none

/-- Greedy star over flag iterations. -/
def munchIters : Nat → Str → List GopassIter × Str
  | 0, s => ([], s)
  | fuel + 1, s =>
    match munchIter s with
    | none => ([], s)
    | some (it, rest) =>
      let p := munchIters fuel rest
      (it :: p.1, p.2)

/-- Capture of `\s*([^)+])` after optional greedy flag iterations, including
the minimal backtracking performed when the greedy pieces consume the whole
segment (the capture group `[^)]+` must keep at least one character). -/
def gopassCaptureTail (u1 : Str) : Str :=
  let p := munchIters u1.length u1
  let iters := p.1
  let u2 := p.2
  let cws := u2.takeWhile isRegexSpace
  let u3 := u2.drop cws.length
  if !u3.isEmpty then u3
  else if !cws.isEmpty then u2.drop (cws.length - 1)
  else
    match iters.getLast? with
    | some it =>
      if 2 ≤ it.alnum.length + it.opt.length then [(it.alnum ++ it.opt).getLastD ' ']
      else it.dashes ++ it.alnum
    | none => []

/-- The capture group of `gopassRegex` on the nonempty text `u` strictly
between `$(gopass` and the first `)` (the optional literal ` show` is
consumed greedily unless that would leave nothing for the capture). -/
def gopassCapture (u : Str) : Str :=
  if (" show".data).isPrefixOf u ∧ ¬(u.drop 5).isEmpty then
    gopassCaptureTail (u.drop 5)
  else gopassCaptureTail u

/-- The replacement for one `gopassRegex` match in `parseEnvFile`:
canonicalize to `gopass show --password <path>`, execute, degrade to empty
with a warning on failure, re-expand variables inside the output, warn when
the final output is empty. -/
def gopassSubstOne (runner : Runner) (key file : String) (lineNum : Nat)
    (inherited initial scope : EnvMap) (path : Str) : Str × List Warning :=
  let commandToExecute := "gopass show --password " ++ String.mk path
  match executeCommandSubstitution runner commandToExecute inherited initial with
  | .error msg => ([], [Warning.gopassFailed file lineNum key msg])
  | .ok out =>
    let expanded := expandVarsInString out.data scope
    if expanded.isEmpty then
      (expanded, [Warning.gopassEmpty file lineNum key (String.mk path)])
    else (expanded, [])

/-- The literal head `$(gopass` of `gopassRegex`. -/
def gopassHead : Str := "$(gopass".data

/-- Fueled scanner of the gopass pass
(`gopassRegex.ReplaceAllStringFunc`). -/
def gopassGo (runner : Runner) (key file : String) (lineNum : Nat)
    (inherited initial scope : EnvMap) : Nat → Str → Str × List Warning
  | 0, s => (s, [])
  | _ + 1, [] => ([], [])
  | fuel + 1, c :: rest =>
    if gopassHead.isPrefixOf (c :: rest) then
      match splitFirst ')' ((c :: rest).drop 8) with
      | some (u, after) =>
        if u.isEmpty then
          let p := gopassGo runner key file lineNum inherited initial scope fuel rest
          (c :: p.1, p.2)
        else
          let r := gopassSubstOne runner key file lineNum inherited initial scope
            (gopassCapture u)
          let p := gopassGo runner key file lineNum inherited initial scope fuel after
          (r.1 ++ p.1, r.2 ++ p.2)
      | none =>
        let p := gopassGo runner key file lineNum inherited initial scope fuel rest
        (c :: p.1, p.2)
    else
      let p := gopassGo runner key file lineNum inherited initial scope fuel rest
      (c :: p.1, p.2)

/-- The gopass substitution pass applied to a whole value. -/
def gopassSubstitution (runner : Runner) (key file : String) (lineNum : Nat)
    (inherited initial scope : EnvMap) (value : Str) : Str × List Warning :=
  gopassGo runner key file lineNum inherited initial scope value.length value

/-! ## Quote handling (`strconv.Unquote` and single quotes) -/

/-- Value of a hexadecimal digit. -/
def hexDigitVal (c : Char) : Option Nat :=
  if '0' ≤ c ∧ c ≤ '9' then some (c.toNat - '0'.toNat)
  else if 'a' ≤ c ∧ c ≤ 'f' then some (c.toNat - 'a'.toNat + 10)
  else if 'A' ≤ c ∧ c ≤ 'F' then some (c.toNat - 'A'.toNat + 10)
  else none

/-- Octal digit test. -/
def isOctalDigit (c : Char) : Bool := '0' ≤ c && c ≤ '7'

/-- Read exactly `n` hexadecimal digits. -/
def readHex : Nat → Nat → Str → Option (Nat × Str)
  | 0, acc, s => some (acc, s)
  | _ + 1, _, [] => none
  | n + 1, acc, c :: rest =>
    match hexDigitVal c with
    | some d => readHex n (acc * 16 + d) rest
    | none => none

/-- One step of Go `strconv.UnquoteChar` with quote character `q`
(the byte-level escapes `\xHH` and octal are modelled as the code point of
the produced byte). -/
def unquoteChar (q : Char) : Str → Option (Char × Str)
  | [] => none
  | c :: rest =>
    if c = q then none
    else if c ≠ '\\' then some (c, rest)
    else
      match rest with
      | [] => none
      | e :: r =>
        if e = 'a' then some ('\x07', r)
        else if e = 'b' then some ('\x08', r)
        else if e = 'f' then some ('\x0c', r)
        else if e = 'n' then some ('\n', r)
        else if e = 'r' then some ('\r', r)
        else if e = 't' then some ('\t', r)
        else if e = 'v' then some ('\x0b', r)
        else if e = 'x' then
          match readHex 2 0 r with
          | some (v, r2) => some (Char.ofNat v, r2)
          | none => none
        else if e = 'u' then
          match readHex 4 0 r with
          | some (v, r2) => if v.isValidChar then some (Char.ofNat v, r2) else none
          | none => none
        else if e = 'U' then
          match readHex 8 0 r with
          | some (v, r2) => if v.isValidChar then some (Char.ofNat v, r2) else none
          | none => none
        else if isOctalDigit e then
          match r with
          | d2 :: d3 :: r2 =>
            if isOctalDigit d2 ∧ isOctalDigit d3 then
              let v := (e.toNat - '0'.toNat) * 64 + (d2.toNat - '0'.toNat) * 8 +
                (d3.toNat - '0'.toNat)
              if 255 < v then none else some (Char.ofNat v, r2)
            else none
          | _ => none
        else if e = '\\' then some ('\\', r)
        else if e = '\'' ∨ e = '"' then
          if e = q then some (e, r) else none
        else none

/-- Iterated `strconv.UnquoteChar` over the whole quoted body. -/
def unquoteLoopGo (q : Char) : Nat → Str → Option Str
  | 0, s => if s.isEmpty then some [] else none
  | _ + 1, [] => some []
  | fuel + 1, s =>
    match unquoteChar q s with
    | some (c, rest) => (unquoteLoopGo q fuel rest).map (c :: ·)
    | none => none

/-- Go `strconv.Unquote` as called by `parseEnvFile` (the value starts and
ends with a double quote when this runs). -/
def strconvUnquote (value : Str) : Option Str :=
  if value.length < 2 then none
  else if value.head? ≠ some '"' ∨ value.getLast? ≠ some '"' then none
  else
    let inner := (value.drop 1).dropLast
    if inner.contains '\n' then none
    else unquoteLoopGo '"' inner.length inner

/-- The quote-handling step of `parseEnvFile`: full unquote of double-quoted
values with fallback to stripping the outer quotes on failure; outer-quote
stripping only (no escape interpretation) for single-quoted values. -/
def unquoteValue (file : String) (lineNum : Nat) (value : Str) : Str × List Warning :=
  if value.head? = some '"' ∧ value.getLast? = some '"' ∧ 2 ≤ value.length then
    match strconvUnquote value with
    | some u => (u, [])
    | none => ((value.drop 1).dropLast, [Warning.unquoteFailed file lineNum (String.mk value)])
  else if value.head? = some '\'' ∧ value.getLast? = some '\'' ∧ 2 ≤ value.length then
    ((value.drop 1).dropLast, [])
  else (value, [])

/-! ## Per-line and per-file resolution (`parseEnvFile`) -/

/-- The body of the scanner loop of `parseEnvFile` for one raw line:
trim, skip blank/comment lines, split at the first `=` (warning and skip
when absent), trim key and value, quote handling, replacement of `\$` by the
placeholder, then the four substitution passes in the fixed order
variable expansion → gopass → `$[...]` → `$(...)`, and finally the map
assignment of the resolved value. -/
def processLine (runner : Runner) (file : String) (lineNum : Nat)
    (inheritedEnvMap initialEnvMap : EnvMap) (rawLine : Str) : EnvMap × List Warning :=
  let line := trimSpace rawLine
  if line.isEmpty ∨ line.head? = some '#' then (initialEnvMap, [])
  else
    match splitFirst '=' line with
    | none => (initialEnvMap, [Warning.malformedLine file lineNum (String.mk line)])
    | some (rawKey, rawValue) =>
      let key := String.mk (trimSpace rawKey)
      let value0 := trimSpace rawValue
      let uq := unquoteValue file lineNum value0
      let value1 := replaceAllStr escapedDollar literalDollarPlaceholder uq.1
      let combinedEnvForLookup := mergeMaps inheritedEnvMap initialEnvMap
      let value2 := expandVarsInString value1 combinedEnvForLookup
      let g := gopassSubstitution runner key file lineNum inheritedEnvMap initialEnvMap
        combinedEnvForLookup value2
      let b := applyBracketSubstitution runner key file lineNum inheritedEnvMap initialEnvMap
        combinedEnvForLookup g.1
      let pr := applyParenSubstitution runner key file lineNum inheritedEnvMap initialEnvMap
        combinedEnvForLookup b.1
      (insertEnv initialEnvMap key (String.mk pr.1), uq.2 ++ g.2 ++ b.2 ++ pr.2)

/-- The scanner loop of `parseEnvFile` over the remaining lines
(`lineNum` counts from 1). -/
def parseEnvLines (runner : Runner) (file : String) (inherited : EnvMap) :
    Nat → EnvMap → List Str → EnvMap × List Warning
  | _, initial, [] => (initial, [])
  | n, initial, l :: ls =>
    let p := processLine runner file n inherited initial l
    let q := parseEnvLines runner file inherited (n + 1) p.1 ls
    (q.1, p.2 ++ q.2)

/-- `parseEnvFile`: the per-file resolution entry point, from the file's
lines (I/O and scanner errors of the source are outside the model). -/
def parseEnvFile (runner : Runner) (file : String) (inherited : EnvMap)
    (lines : List Str) : EnvMap × List Warning :=
  parseEnvLines runner file inherited 1 [] lines

/-! ## Chain / merge coordination (`main`) -/

/-- One file of a chain: its path and its lines. -/
structure EnvFile where
  name : String
  lines : List Str

/-- The chain loop of `main`: fold each file's resolved map into the joint
map (later files override) and rebuild the inherited environment as
`mergeMaps(osEnvMap, jointResolvedEnvMap)` before the next file. -/
def runChainAux (runner : Runner) (osEnvMap : EnvMap) :
    EnvMap → EnvMap → List EnvFile → EnvMap × List Warning
  | joint, _, [] => (joint, [])
  | joint, inherited, f :: fs =>
    let p := parseEnvFile runner f.name inherited f.lines
    let joint2 := mergeMaps joint p.1
    let q := runChainAux runner osEnvMap joint2 (mergeMaps osEnvMap joint2) fs
    (q.1, p.2 ++ q.2)

/-- The joint resolved map over a chain of files, before placeholder
restoration. -/
def jointResolved (runner : Runner) (osEnvMap : EnvMap) (files : List EnvFile) :
    EnvMap × List Warning :=
  runChainAux runner osEnvMap [] osEnvMap files

/-- The final pass of `main`: restore every placeholder occurrence to a
literal dollar in every value. -/
def restorePlaceholders (m : EnvMap) : EnvMap :=
  m.map (fun kv => (kv.1, String.mk (replaceAllStr literalDollarPlaceholder ['$'] kv.2.data)))

/-- The fully resolved joint map returned by the chain, placeholders
restored. -/
def resolveChain (runner : Runner) (osEnvMap : EnvMap) (files : List EnvFile) : EnvMap :=
  restorePlaceholders (jointResolved runner osEnvMap files).1

/-- The environment slice handed to `syscall.Exec`: only the joint map in
sandboxed mode, the process environment merged with the joint map otherwise. -/
def envpFor (sandBoxed : Bool) (osEnvMap joint : EnvMap) : List String :=
  if sandBoxed then mapToSlice joint else mapToSlice (mergeMaps osEnvMap joint)

/-! ## Helper lemmas -/

theorem lookupEnv_mergeMaps (m₁ m₂ : EnvMap) (k : String) :
    lookupEnv (mergeMaps m₁ m₂) k =
      match lookupEnv m₂ k with
      | some v => some v
      | none => lookupEnv m₁ k := by
  induction m₁ with
  | nil =>
    simp only [mergeMaps, List.nil_append]
    cases lookupEnv m₂ k <;> simp [lookupEnv]
  | cons a m₁ ih =>
    obtain ⟨k', v'⟩ := a
    simp only [mergeMaps, List.cons_append, List.append_eq, lookupEnv] at *
    rw [ih]
    cases lookupEnv m₂ k <;> cases h₁ : lookupEnv m₁ k <;> simp

theorem lookupEnv_mergeMaps_some {m₂ : EnvMap} {k : String} {v : String}
    (m₁ : EnvMap) (h : lookupEnv m₂ k = some v) :
    lookupEnv (mergeMaps m₁ m₂) k = some v := by
  rw [lookupEnv_mergeMaps, h]

theorem lookupEnv_mergeMaps_none {m₂ : EnvMap} {k : String}
    (m₁ : EnvMap) (h : lookupEnv m₂ k = none) :
    lookupEnv (mergeMaps m₁ m₂) k = lookupEnv m₁ k := by
  rw [lookupEnv_mergeMaps, h]

theorem lookupEnv_insertEnv_self (m : EnvMap) (k v : String) :
    lookupEnv (insertEnv m k v) k = some v := by
  have : lookupEnv [(k, v)] k = some v := by simp [lookupEnv]
  simpa [insertEnv] using lookupEnv_mergeMaps_some m this

theorem hasKey_mergeMaps (m₁ m₂ : EnvMap) (k : String) :
    hasKey (mergeMaps m₁ m₂) k = (hasKey m₁ k || hasKey m₂ k) := by
  simp only [hasKey, lookupEnv_mergeMaps]
  cases lookupEnv m₂ k <;> cases h : lookupEnv m₁ k <;> simp

theorem splitFirst_not_mem {sep : Char} : ∀ {s : Str}, sep ∉ s →
    splitFirst sep s = none := by
  intro s
  induction s with
  | nil => intro _; rfl
  | cons c rest ih =>
    intro h
    simp only [List.mem_cons, not_or] at h
    simp [splitFirst, Ne.symm h.1, ih h.2]

theorem splitFirst_append_cons {sep : Char} : ∀ {a : Str} (b : Str), sep ∉ a →
    splitFirst sep (a ++ sep :: b) = some (a, b) := by
  intro a
  induction a with
  | nil => intro b _; simp [splitFirst]
  | cons c rest ih =>
    intro b h
    simp only [List.mem_cons, not_or] at h
    simp [splitFirst, Ne.symm h.1, ih b h.2]

theorem takeIdent_all : ∀ {s : Str}, (∀ c ∈ s, identChar c = true) →
    takeIdent s = (s, []) := by
  intro s
  induction s with
  | nil => intro _; rfl
  | cons c rest ih =>
    intro h
    simp [takeIdent, h c (by simp), ih (fun c hc => h c (List.mem_cons_of_mem _ hc))]

theorem expandVarsGo_no_dollar {env : EnvMap} :
    ∀ (fuel : Nat) {s : Str}, (∀ c ∈ s, c ≠ '$') →
      expandVarsGo env fuel s = s := by
  intro fuel
  induction fuel with
  | zero => intro s _; rfl
  | succ fuel ih =>
    intro s h
    match s with
    | [] => rfl
    | c :: rest =>
      have hc : c ≠ '$' := h c (by simp)
      simp [expandVarsGo, hc, ih (fun c hc => h c (List.mem_cons_of_mem _ hc))]

theorem gopassHead_eq : gopassHead = ['$', '(', 'g', 'o', 'p', 'a', 's', 's'] := rfl

theorem gopassGo_no_dollar {runner : Runner} {key file : String} {lineNum : Nat}
    {inherited initial scope : EnvMap} :
    ∀ (fuel : Nat) {s : Str}, (∀ c ∈ s, c ≠ '$') →
      gopassGo runner key file lineNum inherited initial scope fuel s = (s, []) := by
  intro fuel
  induction fuel with
  | zero => intro s _; rfl
  | succ fuel ih =>
    intro s h
    match s with
    | [] => rfl
    | c :: rest =>
      have hc : c ≠ '$' := h c (by simp)
      have hpre : gopassHead.isPrefixOf (c :: rest) = false := by
        rw [gopassHead_eq]
        simp [List.isPrefixOf, Ne.symm hc]
      simp [gopassGo, hpre, ih (fun c hc => h c (List.mem_cons_of_mem _ hc))]

theorem cmdSubGo_no_dollar {oc cc : Char} {runner : Runner} {key file : String}
    {lineNum : Nat} {inherited initial scope : EnvMap} :
    ∀ (fuel : Nat) {s : Str}, (∀ c ∈ s, c ≠ '$') →
      cmdSubGo oc cc runner key file lineNum inherited initial scope fuel s = (s, []) := by
  intro fuel
  induction fuel with
  | zero => intro s _; rfl
  | succ fuel ih =>
    intro s h
    match s with
    | [] => rfl
    | c :: rest =>
      have hc : c ≠ '$' := h c (by simp)
      simp [cmdSubGo, hc, ih (fun c hc => h c (List.mem_cons_of_mem _ hc))]

theorem replaceAllGo_no_head {pat rep : Str} {p₀ : Char} {patTail : Str}
    (hpat : pat = p₀ :: patTail) :
    ∀ (fuel : Nat) {s : Str}, (∀ c ∈ s, c ≠ p₀) →
      replaceAllGo pat rep fuel s = s := by
  intro fuel
  induction fuel with
  | zero => intro s _; rfl
  | succ fuel ih =>
    intro s h
    match s with
    | [] => rfl
    | c :: rest =>
      have hc : c ≠ p₀ := h c (by simp)
      have hpre : pat.isPrefixOf (c :: rest) = false := by
        rw [hpat]; simp [List.isPrefixOf, Ne.symm hc]
      simp [replaceAllGo, hpre, ih (fun c hc => h c (List.mem_cons_of_mem _ hc))]

theorem isPrefixOf_replaceAllGo {pat rep : Str} (hrep : rep ≠ []) :
    ∀ (fuel : Nat) {s q : Str}, (∀ c ∈ rep, c ∉ q) →
      q.isPrefixOf (replaceAllGo pat rep fuel s) = true → q.isPrefixOf s = true := by
  intro fuel
  induction fuel with
  | zero => intro s q _ h; simpa [replaceAllGo] using h
  | succ fuel ih =>
    intro s q hdisj h
    match s with
    | [] => simpa [replaceAllGo] using h
    | c :: rest =>
      by_cases hb : (pat.isPrefixOf (c :: rest) && !pat.isEmpty) = true
      · rw [replaceAllGo, if_pos hb] at h
        match q, hdisj with
        | [], _ => simp [List.isPrefixOf]
        | d :: q', hdisj =>
          obtain ⟨r, rep', rfl⟩ := List.exists_cons_of_ne_nil hrep
          rw [List.cons_append] at h
          simp only [List.isPrefixOf, Bool.and_eq_true, beq_iff_eq] at h
          exact absurd (h.1 ▸ List.mem_cons_self d q') (hdisj r (List.mem_cons_self r rep'))
      · rw [replaceAllGo, if_neg hb] at h
        match q, hdisj with
        | [], _ => simp [List.isPrefixOf]
        | d :: q', hdisj =>
          simp only [List.isPrefixOf, Bool.and_eq_true, beq_iff_eq] at h ⊢
          exact ⟨h.1,
            ih (fun ch hch hmem => hdisj ch hch (List.mem_cons_of_mem _ hmem)) h.2⟩

theorem containsSub_append_left {pat : Str} (hpat : pat ≠ []) :
    ∀ {rep X : Str}, (∀ c ∈ rep, c ∉ pat) → containsSub pat X = false →
      containsSub pat (rep ++ X) = false := by
  intro rep
  induction rep with
  | nil => intro X _ hX; simpa using hX
  | cons r rep' ih =>
    intro X hdisj hX
    rw [List.cons_append, containsSub]
    have h2 := ih (fun c hc => hdisj c (List.mem_cons_of_mem _ hc)) hX
    obtain ⟨p, pat', rfl⟩ := List.exists_cons_of_ne_nil hpat
    have hr : r ∉ p :: pat' := hdisj r (List.mem_cons_self r rep')
    have h1 : (p :: pat').isPrefixOf (r :: (rep' ++ X)) = false := by
      simp only [List.isPrefixOf]
      by_cases hpr : p = r
      · exact absurd (hpr ▸ List.mem_cons_self p pat') hr
      · simp [hpr]
    simp [h1, h2]

theorem containsSub_replaceAllGo {pat rep : Str} (hpat : pat ≠ []) (hrep : rep ≠ [])
    (hdisj : ∀ c ∈ rep, c ∉ pat) :
    ∀ (fuel : Nat) {s : Str}, s.length ≤ fuel →
      containsSub pat (replaceAllGo pat rep fuel s) = false := by
  obtain ⟨p, pat', rfl⟩ := List.exists_cons_of_ne_nil hpat
  intro fuel
  induction fuel with
  | zero =>
    intro s hs
    have hz : s = [] := List.length_eq_zero.mp (Nat.le_zero.mp hs)
    subst hz
    simp [replaceAllGo, containsSub]
  | succ fuel ih =>
    intro s hs
    match s with
    | [] => simp [replaceAllGo, containsSub]
    | c :: rest =>
      by_cases hb : ((p :: pat').isPrefixOf (c :: rest) && !(p :: pat').isEmpty) = true
      · rw [replaceAllGo, if_pos hb]
        have hlen : ((c :: rest).drop (p :: pat').length).length ≤ fuel := by
          rw [List.length_drop]
          have := List.length_cons c rest ▸ hs
          simp only [List.length_cons] at this ⊢
          omega
        exact containsSub_append_left hpat hdisj (ih hlen)
      · rw [replaceAllGo, if_neg hb, containsSub]
        have hrest : rest.length ≤ fuel := by
          simp only [List.length_cons] at hs
          omega
        have h2 := ih hrest
        have h1 : (p :: pat').isPrefixOf (c :: replaceAllGo (p :: pat') rep fuel rest) =
            false := by
          simp only [List.isPrefixOf]
          by_cases hpc : p = c
          · subst hpc
            cases hq : pat'.isPrefixOf (replaceAllGo (p :: pat') rep fuel rest) with
            | false => simp [hq]
            | true =>
              have hq' : pat'.isPrefixOf rest = true :=
                isPrefixOf_replaceAllGo hrep fuel
                  (fun ch hch hmem => hdisj ch hch (List.mem_cons_of_mem _ hmem)) hq
              exact absurd (by simp [List.isPrefixOf, hq']) hb
          · simp [hpc]
        simp [h1, h2]

theorem containsSub_replaceAllStr {pat rep : Str} (hpat : pat ≠ []) (hrep : rep ≠ [])
    (hdisj : ∀ c ∈ rep, c ∉ pat) (s : Str) :
    containsSub pat (replaceAllStr pat rep s) = false :=
  containsSub_replaceAllGo hpat hrep hdisj s.length le_rfl

theorem lookupEnv_restorePlaceholders (m : EnvMap) (k : String) :
    lookupEnv (restorePlaceholders m) k =
      (lookupEnv m k).map
        (fun v => String.mk (replaceAllStr literalDollarPlaceholder ['$'] v.data)) := by
  induction m with
  | nil => rfl
  | cons a m ih =>
    obtain ⟨k', v'⟩ := a
    simp only [restorePlaceholders, List.map_cons, lookupEnv] at *
    rw [ih]
    cases lookupEnv m k with
    | some v => simp
    | none => by_cases h : k' = k <;> simp [h]

theorem isPrefixOf_append_self : ∀ (p t : Str), p.isPrefixOf (p ++ t) = true := by
  intro p t
  induction p with
  | nil => simp [List.isPrefixOf]
  | cons c p ih => simp [List.isPrefixOf, ih]

theorem takeIdent_append {a : Str} {d : Char} (r : Str)
    (ha : ∀ c ∈ a, identChar c = true) (hd : identChar d = false) :
    takeIdent (a ++ d :: r) = (a, d :: r) := by
  induction a with
  | nil => simp [takeIdent, hd]
  | cons c a ih =>
    simp only [List.cons_append, takeIdent, ha c (List.mem_cons_self c a)]
    simp [ih (fun c hc => ha c (List.mem_cons_of_mem _ hc))]

theorem expandVarsInString_single_ref (env : EnvMap) {c : Char} {cs : Str}
    (hc : identStartChar c = true) (hcs : ∀ x ∈ cs, identChar x = true) :
    expandVarsInString ('$' :: c :: cs) env =
      ((lookupEnv env (String.mk (c :: cs))).getD "").data := by
  have hm : matchVarRef (c :: cs) = some (c :: cs, []) := by
    simp [matchVarRef, hc, takeIdent_all hcs]
  simp [expandVarsInString, expandVarsGo, hm]

theorem expandVarsGo_ref_suffix (env : EnvMap) {c d : Char} {cs r : Str}
    (hc : identStartChar c = true) (hcs : ∀ x ∈ cs, identChar x = true)
    (hd : identChar d = false) (hnd : ∀ x ∈ d :: r, x ≠ '$') (n : Nat) :
    expandVarsGo env (n + 1) ('$' :: c :: (cs ++ d :: r)) =
      ((lookupEnv env (String.mk (c :: cs))).getD "").data ++ d :: r := by
  have hm : matchVarRef (c :: (cs ++ d :: r)) = some (c :: cs, d :: r) := by
    simp [matchVarRef, hc, takeIdent_append r hcs hd]
  have key : expandVarsGo env n (d :: r) = d :: r := expandVarsGo_no_dollar n hnd
  simp [expandVarsGo, hm, key]

theorem expandVarsInString_ref_suffix (env : EnvMap) {c d : Char} {cs r : Str}
    (hc : identStartChar c = true) (hcs : ∀ x ∈ cs, identChar x = true)
    (hd : identChar d = false) (hnd : ∀ x ∈ d :: r, x ≠ '$') :
    expandVarsInString ('$' :: c :: (cs ++ d :: r)) env =
      ((lookupEnv env (String.mk (c :: cs))).getD "").data ++ d :: r := by
  show expandVarsGo env (('$' :: c :: (cs ++ d :: r)).length) _ = _
  have hlen : ('$' :: c :: (cs ++ d :: r)).length = (c :: (cs ++ d :: r)).length + 1 := rfl
  rw [hlen, expandVarsGo_ref_suffix env hc hcs hd hnd]

theorem munchIters_of_none {s : Str} (h : munchIter s = none) :
    ∀ fuel, munchIters fuel s = ([], s) := by
  intro fuel
  cases fuel with
  | zero => rfl
  | succ fuel => simp [munchIters, h]

theorem munchIter_space_nondash {p₀ : Char} (P' : Str)
    (hsp : isRegexSpace p₀ = false) (hdash : p₀ ≠ '-') :
    munchIter (' ' :: p₀ :: P') = none := by
  have h1 : isRegexSpace ' ' = true := by decide
  have hws : (' ' :: p₀ :: P').takeWhile isRegexSpace = [' '] := by
    simp [List.takeWhile_cons, h1, hsp]
  have hdw : (' ' :: p₀ :: P').dropWhile isRegexSpace = p₀ :: P' := by
    simp [List.dropWhile_cons, h1, hsp]
  simp [munchIter, hws, hdw, hdash]

theorem gopassCaptureTail_plain {p₀ : Char} (P' : Str)
    (hsp : isRegexSpace p₀ = false) (hdash : p₀ ≠ '-') :
    gopassCaptureTail (' ' :: p₀ :: P') = p₀ :: P' := by
  have h1 : isRegexSpace ' ' = true := by decide
  have hmi := munchIter_space_nondash P' hsp hdash
  have hws : (' ' :: p₀ :: P').takeWhile isRegexSpace = [' '] := by
    simp [List.takeWhile_cons, h1, hsp]
  simp [gopassCaptureTail, munchIters_of_none hmi, hws]

theorem gopassCapture_plain {p₀ : Char} (P' : Str)
    (hsp : isRegexSpace p₀ = false) (hdash : p₀ ≠ '-')
    (hshow : ¬ ("show".data).isPrefixOf (p₀ :: P') = true) :
    gopassCapture (' ' :: p₀ :: P') = p₀ :: P' := by
  have hpre : (" show".data).isPrefixOf (' ' :: p₀ :: P') = false := by
    have heq : (" show".data).isPrefixOf (' ' :: p₀ :: P') =
        ("show".data).isPrefixOf (p₀ :: P') := by
      show (' ' :: "show".data).isPrefixOf (' ' :: p₀ :: P') = _
      rw [List.isPrefixOf]
      simp
    rw [heq]
    cases h : ("show".data).isPrefixOf (p₀ :: P') with
    | false => rfl
    | true => exact absurd h hshow
  simp [gopassCapture, hpre, gopassCaptureTail_plain P' hsp hdash]

theorem gopassCapture_show {p₀ : Char} (P' : Str)
    (hsp : isRegexSpace p₀ = false) (hdash : p₀ ≠ '-') :
    gopassCapture (" show".data ++ ' ' :: p₀ :: P') = p₀ :: P' := by
  have hpre : (" show".data).isPrefixOf (" show".data ++ ' ' :: p₀ :: P') = true :=
    isPrefixOf_append_self _ _
  have hdrop : ((" show".data ++ ' ' :: p₀ :: P').drop 5) = ' ' :: p₀ :: P' := by
    have : (5 : Nat) = (" show".data).length := rfl
    rw [this, List.drop_left]
  simp only [gopassCapture, hpre, hdrop]
  simp [gopassCaptureTail_plain P' hsp hdash]

theorem gopassGo_nil (runner : Runner) (key file : String) (lineNum : Nat)
    (inherited initial scope : EnvMap) :
    ∀ fuel, gopassGo runner key file lineNum inherited initial scope fuel [] = ([], []) := by
  intro fuel; cases fuel <;> rfl

theorem cmdSubGo_nil (oc cc : Char) (runner : Runner) (key file : String) (lineNum : Nat)
    (inherited initial scope : EnvMap) :
    ∀ fuel, cmdSubGo oc cc runner key file lineNum inherited initial scope fuel [] =
      ([], []) := by
  intro fuel; cases fuel <;> rfl

theorem gopassGo_single (runner : Runner) (key file : String) (lineNum : Nat)
    (inherited initial scope : EnvMap) {u : Str} (hu : u ≠ []) (hnp : ')' ∉ u) (n : Nat) :
    gopassGo runner key file lineNum inherited initial scope (n + 1)
      ('$' :: '(' :: 'g' :: 'o' :: 'p' :: 'a' :: 's' :: 's' :: (u ++ [')'])) =
      gopassSubstOne runner key file lineNum inherited initial scope (gopassCapture u) := by
  have hsplit : splitFirst ')' (u ++ [')']) = some (u, []) := splitFirst_append_cons [] hnp
  have hne : u.isEmpty = false := by simp [List.isEmpty_iff, hu]
  simp [gopassGo, gopassHead_eq, List.isPrefixOf, hsplit, hne,
    gopassGo_nil runner key file lineNum inherited initial scope]

theorem gopassSubstitution_single (runner : Runner) (key file : String) (lineNum : Nat)
    (inherited initial scope : EnvMap) {u : Str} (hu : u ≠ []) (hnp : ')' ∉ u) :
    gopassSubstitution runner key file lineNum inherited initial scope
      ('$' :: '(' :: 'g' :: 'o' :: 'p' :: 'a' :: 's' :: 's' :: (u ++ [')'])) =
      gopassSubstOne runner key file lineNum inherited initial scope (gopassCapture u) := by
  show gopassGo runner key file lineNum inherited initial scope
    (('$' :: '(' :: 'g' :: 'o' :: 'p' :: 'a' :: 's' :: 's' :: (u ++ [')'])).length) _ = _
  have hlen : ('$' :: '(' :: 'g' :: 'o' :: 'p' :: 'a' :: 's' :: 's' :: (u ++ [')'])).length =
      (u.length + 8) + 1 := by simp
  rw [hlen]
  exact gopassGo_single runner key file lineNum inherited initial scope hu hnp _

theorem cmdSubGo_single (oc cc : Char) (runner : Runner) (key file : String) (lineNum : Nat)
    (inherited initial scope : EnvMap) {cmd : Str} (hcmd : cmd ≠ []) (hnc : cc ∉ cmd)
    (n : Nat) :
    cmdSubGo oc cc runner key file lineNum inherited initial scope (n + 1)
      ('$' :: oc :: (cmd ++ [cc])) =
      commandSubstOne runner key file lineNum inherited initial scope cmd := by
  have hsplit : splitFirst cc (cmd ++ [cc]) = some (cmd, []) := splitFirst_append_cons [] hnc
  have hne : cmd.isEmpty = false := by simp [List.isEmpty_iff, hcmd]
  simp [cmdSubGo, hsplit, hne,
    cmdSubGo_nil oc cc runner key file lineNum inherited initial scope]

theorem applyBracketSubstitution_single (runner : Runner) (key file : String)
    (lineNum : Nat) (inherited initial scope : EnvMap) {cmd : Str}
    (hcmd : cmd ≠ []) (hnc : ']' ∉ cmd) :
    applyBracketSubstitution runner key file lineNum inherited initial scope
      ('$' :: '[' :: (cmd ++ [']'])) =
      commandSubstOne runner key file lineNum inherited initial scope cmd := by
  show cmdSubGo '[' ']' runner key file lineNum inherited initial scope
    (('$' :: '[' :: (cmd ++ [']'])).length) _ = _
  have hlen : ('$' :: '[' :: (cmd ++ [']'])).length = (cmd.length + 2) + 1 := by simp
  rw [hlen]
  exact cmdSubGo_single '[' ']' runner key file lineNum inherited initial scope hcmd hnc _

theorem applyParenSubstitution_single (runner : Runner) (key file : String)
    (lineNum : Nat) (inherited initial scope : EnvMap) {cmd : Str}
    (hcmd : cmd ≠ []) (hnc : ')' ∉ cmd) :
    applyParenSubstitution runner key file lineNum inherited initial scope
      ('$' :: '(' :: (cmd ++ [')'])) =
      commandSubstOne runner key file lineNum inherited initial scope cmd := by
  show cmdSubGo '(' ')' runner key file lineNum inherited initial scope
    (('$' :: '(' :: (cmd ++ [')'])).length) _ = _
  have hlen : ('$' :: '(' :: (cmd ++ [')'])).length = (cmd.length + 2) + 1 := by simp
  rw [hlen]
  exact cmdSubGo_single '(' ')' runner key file lineNum inherited initial scope hcmd hnc _

theorem processLine_plain (runner : Runner) (file : String) (n : Nat)
    (inh init : EnvMap) (k v : Str)
    (htrim : trimSpace (k ++ '=' :: v) = k ++ '=' :: v)
    (hhash : (k ++ '=' :: v).head? ≠ some '#')
    (hkeq : '=' ∉ k)
    (hktrim : trimSpace k = k) (hvtrim : trimSpace v = v)
    (hq1 : v.head? ≠ some '"') (hq2 : v.head? ≠ some '\'')
    (hnb : ∀ c ∈ v, c ≠ '\\') (hnd : ∀ c ∈ v, c ≠ '$') :
    processLine runner file n inh init (k ++ '=' :: v) =
      (insertEnv init (String.mk k) (String.mk v), []) := by
  have hsplit : splitFirst '=' (k ++ '=' :: v) = some (k, v) := splitFirst_append_cons v hkeq
  have hemp : (k ++ '=' :: v).isEmpty = false := by simp
  have huq : unquoteValue file n v = (v, []) := by
    rw [unquoteValue, if_neg, if_neg]
    · intro hcon; exact hq2 hcon.1
    · intro hcon; exact hq1 hcon.1
  have hrep : replaceAllStr escapedDollar literalDollarPlaceholder v = v :=
    replaceAllGo_no_head rfl v.length hnb
  have hexp : expandVarsInString v (mergeMaps inh init) = v :=
    expandVarsGo_no_dollar v.length hnd
  have hg : gopassSubstitution runner (String.mk k) file n inh init (mergeMaps inh init) v =
      (v, []) := gopassGo_no_dollar v.length hnd
  have hb : applyBracketSubstitution runner (String.mk k) file n inh init
      (mergeMaps inh init) v = (v, []) := cmdSubGo_no_dollar v.length hnd
  have hp : applyParenSubstitution runner (String.mk k) file n inh init
      (mergeMaps inh init) v = (v, []) := cmdSubGo_no_dollar v.length hnd
  rw [processLine]
  rw [htrim, if_neg (by
    intro hcon
    rcases hcon with hcon | hcon
    · rw [hemp] at hcon; exact Bool.false_ne_true hcon
    · exact hhash hcon), hsplit]
  simp only [hktrim, hvtrim, huq, hrep, hexp, hg, hb, hp, List.append_nil,
    List.nil_append]

theorem lookupEnv_isSome_iff (m : EnvMap) (k : String) :
    (lookupEnv m k).isSome = true ↔ k ∈ m.map Prod.fst := by
  induction m with
  | nil => simp [lookupEnv]
  | cons a m ih =>
    obtain ⟨k', v⟩ := a
    simp only [lookupEnv, List.map_cons, List.mem_cons]
    cases h : lookupEnv m k with
    | some v' =>
      rw [h] at ih
      simp only [Option.isSome_some, true_iff] at ih
      simp [ih]
    | none =>
      rw [h] at ih
      simp only [Option.isSome_none, Bool.false_eq_true, false_iff] at ih
      by_cases hk : k' = k <;> simp [hk, ih, eq_comm]
      exact fun hkk => hk hkk.symm

theorem mem_sortedKeys_iff (m : EnvMap) (k : String) :
    k ∈ sortedKeys m ↔ hasKey m k = true := by
  rw [sortedKeys, (List.perm_insertionSort _ (mapKeys m)).mem_iff, mapKeys,
    List.mem_dedup, hasKey, lookupEnv_isSome_iff]

theorem parseEnvLines_nil (runner : Runner) (file : String) (inh : EnvMap) (n : Nat)
    (initial : EnvMap) : parseEnvLines runner file inh n initial [] = (initial, []) := rfl

theorem parseEnvLines_cons (runner : Runner) (file : String) (inh : EnvMap) (n : Nat)
    (initial : EnvMap) (l : Str) (ls : List Str) :
    parseEnvLines runner file inh n initial (l :: ls) =
      ((parseEnvLines runner file inh (n + 1)
          (processLine runner file n inh initial l).1 ls).1,
        (processLine runner file n inh initial l).2 ++
          (parseEnvLines runner file inh (n + 1)
            (processLine runner file n inh initial l).1 ls).2) := rfl

theorem parseEnvFile_single_plain (runner : Runner) (file : String) (inh : EnvMap)
    (k v : Str)
    (htrim : trimSpace (k ++ '=' :: v) = k ++ '=' :: v)
    (hhash : (k ++ '=' :: v).head? ≠ some '#')
    (hkeq : '=' ∉ k)
    (hktrim : trimSpace k = k) (hvtrim : trimSpace v = v)
    (hq1 : v.head? ≠ some '"') (hq2 : v.head? ≠ some '\'')
    (hnb : ∀ c ∈ v, c ≠ '\\') (hnd : ∀ c ∈ v, c ≠ '$') :
    parseEnvFile runner file inh [k ++ '=' :: v] =
      ([(String.mk k, String.mk v)], []) := by
  show parseEnvLines runner file inh 1 [] [k ++ '=' :: v] = _
  rw [parseEnvLines_cons, processLine_plain runner file 1 inh [] k v htrim hhash hkeq hktrim
    hvtrim hq1 hq2 hnb hnd]
  rfl

theorem runChainAux_nil (runner : Runner) (os joint inherited : EnvMap) :
    runChainAux runner os joint inherited [] = (joint, []) := rfl

theorem runChainAux_cons (runner : Runner) (os joint inherited : EnvMap) (f : EnvFile)
    (fs : List EnvFile) :
    runChainAux runner os joint inherited (f :: fs) =
      ((runChainAux runner os
          (mergeMaps joint (parseEnvFile runner f.name inherited f.lines).1)
          (mergeMaps os (mergeMaps joint (parseEnvFile runner f.name inherited f.lines).1))
          fs).1,
        (parseEnvFile runner f.name inherited f.lines).2 ++
          (runChainAux runner os
            (mergeMaps joint (parseEnvFile runner f.name inherited f.lines).1)
            (mergeMaps os (mergeMaps joint (parseEnvFile runner f.name inherited f.lines).1))
            fs).2) := rfl

theorem expandVarsGo_nil (env : EnvMap) : ∀ fuel, expandVarsGo env fuel [] = [] := by
  intro fuel; cases fuel <;> rfl

theorem expandVarsInString_braced_ref (env : EnvMap) {c : Char} {cs : Str}
    (hc : identStartChar c = true) (hcs : ∀ x ∈ cs, identChar x = true) :
    expandVarsInString ('$' :: '{' :: c :: (cs ++ ['}'])) env =
      ((lookupEnv env (String.mk (c :: cs))).getD "").data := by
  have hm : matchVarRef ('{' :: c :: (cs ++ ['}'])) = some (c :: cs, []) := by
    have hid : identStartChar '{' = false := by decide
    have h2 : identChar '}' = false := by decide
    simp [matchVarRef, hid, hc, takeIdent_append [] hcs h2]
  simp [expandVarsInString, expandVarsGo, hm, expandVarsGo_nil]

theorem processLine_forward_ref (runner : Runner) (file : String) (inh : EnvMap)
    (habs : lookupEnv inh "A" = none) :
    processLine runner file 1 inh [] "B=${A}".data = ([("B", "")], []) := by
  have ht : trimSpace "B=${A}".data = "B=${A}".data := by decide
  have hsplit : splitFirst '=' "B=${A}".data = some (['B'], ['$', '{', 'A', '}']) := by
    decide
  have h1 : trimSpace ['B'] = ['B'] := by decide
  have h2 : trimSpace ['$', '{', 'A', '}'] = ['$', '{', 'A', '}'] := by decide
  have h3 : unquoteValue file 1 ['$', '{', 'A', '}'] = (['$', '{', 'A', '}'], []) := rfl
  have h4 : replaceAllStr escapedDollar literalDollarPlaceholder ['$', '{', 'A', '}'] =
      ['$', '{', 'A', '}'] := by decide
  have h5 : expandVarsInString ['$', '{', 'A', '}'] (mergeMaps inh []) = [] := by
    have hl : lookupEnv (mergeMaps inh []) "A" = none := by
      rw [mergeMaps, List.append_nil]; exact habs
    rw [show (['$', '{', 'A', '}'] : Str) = '$' :: '{' :: 'A' :: ([] ++ ['}']) from rfl,
      expandVarsInString_braced_ref (mergeMaps inh []) (by decide) (by simp)]
    simp [hl]
  rw [processLine, ht, if_neg (by decide), hsplit]
  simp only [h1, h2, h3, h4, h5]
  rfl

theorem processLine_self_ref (runner : Runner) (file : String) (inh : EnvMap)
    (habs : lookupEnv inh "MY_VAR" = none) :
    processLine runner file 1 inh [] "MY_VAR=$MY_VAR".data = ([("MY_VAR", "")], []) := by
  have ht : trimSpace "MY_VAR=$MY_VAR".data = "MY_VAR=$MY_VAR".data := by decide
  have hsplit : splitFirst '=' "MY_VAR=$MY_VAR".data =
      some ("MY_VAR".data, "$MY_VAR".data) := by decide
  have h1 : trimSpace "MY_VAR".data = "MY_VAR".data := by decide
  have h2 : trimSpace "$MY_VAR".data = "$MY_VAR".data := by decide
  have h3 : unquoteValue file 1 "$MY_VAR".data = ("$MY_VAR".data, []) := rfl
  have h4 : replaceAllStr escapedDollar literalDollarPlaceholder "$MY_VAR".data =
      "$MY_VAR".data := by decide
  have h5 : expandVarsInString "$MY_VAR".data (mergeMaps inh []) = [] := by
    have hl : lookupEnv (mergeMaps inh []) "MY_VAR" = none := by
      rw [mergeMaps, List.append_nil]; exact habs
    rw [show ("$MY_VAR".data : Str) = '$' :: 'M' :: ['Y', '_', 'V', 'A', 'R'] from rfl,
      expandVarsInString_single_ref (mergeMaps inh []) (by decide) (by decide)]
    simp [hl]
  rw [processLine, ht, if_neg (by decide), hsplit]
  simp only [h1, h2, h3, h4, h5]
  rfl

theorem gopassGo_dollar_no_trigger {runner : Runner} {key file : String}
    {lineNum : Nat} {inherited initial scope : EnvMap}
    (n : Nat) {rest : Str} (hpre : gopassHead.isPrefixOf ('$' :: rest) = false)
    (hnd : ∀ c ∈ rest, c ≠ '$') :
    gopassGo runner key file lineNum inherited initial scope (n + 1) ('$' :: rest) =
      ('$' :: rest, []) := by
  simp [gopassGo, hpre, gopassGo_no_dollar n hnd]

theorem trimSuffixNewline_subset {s : Str} : ∀ ch ∈ trimSuffixNewline s, ch ∈ s := by
  intro ch hch
  unfold trimSuffixNewline at hch
  split at hch
  · exact (List.dropLast_sublist _).subset hch
  · exact hch

theorem processLine_override_ref (runner : Runner) (file : String) (inh : EnvMap) :
    processLine runner file 2 inh [("A", "1")] "A=$A-2".data =
      (insertEnv [("A", "1")] "A" "1-2", []) := by
  have ht : trimSpace "A=$A-2".data = "A=$A-2".data := by decide
  have hsplit : splitFirst '=' "A=$A-2".data = some (['A'], "$A-2".data) := by decide
  have h1 : trimSpace ['A'] = ['A'] := by decide
  have h2 : trimSpace "$A-2".data = "$A-2".data := by decide
  have h3 : unquoteValue file 2 "$A-2".data = ("$A-2".data, []) := rfl
  have h4 : replaceAllStr escapedDollar literalDollarPlaceholder "$A-2".data =
      "$A-2".data := by decide
  have hl : lookupEnv (mergeMaps inh [("A", "1")]) "A" = some "1" :=
    lookupEnv_mergeMaps_some inh (by decide)
  have h5 : expandVarsInString "$A-2".data (mergeMaps inh [("A", "1")]) = "1-2".data := by
    rw [show ("$A-2".data : Str) = '$' :: 'A' :: ([] ++ '-' :: ['2']) from rfl,
      expandVarsInString_ref_suffix (mergeMaps inh [("A", "1")]) (by decide) (by simp)
        (by decide) (by decide)]
    simp [hl]
  have h6 : gopassSubstitution runner (String.mk ['A']) file 2 inh [("A", "1")]
      (mergeMaps inh [("A", "1")]) "1-2".data = ("1-2".data, []) :=
    gopassGo_no_dollar _ (by decide)
  have h7 : applyBracketSubstitution runner (String.mk ['A']) file 2 inh [("A", "1")]
      (mergeMaps inh [("A", "1")]) "1-2".data = ("1-2".data, []) :=
    cmdSubGo_no_dollar _ (by decide)
  have h8 : applyParenSubstitution runner (String.mk ['A']) file 2 inh [("A", "1")]
      (mergeMaps inh [("A", "1")]) "1-2".data = ("1-2".data, []) :=
    cmdSubGo_no_dollar _ (by decide)
  rw [processLine, ht, if_neg (by decide), hsplit]
  simp only [h1, h2, h3, h4, h5, h6, h7, h8]
  rfl

theorem processLine_bracket_cmd (runner : Runner) (file : String) (inh : EnvMap)
    {out : String}
    (hout : runner "cmd" (mapToSlice (mergeMaps inh [("A", "1")])) = Except.ok out)
    (hnd : ∀ ch ∈ out.data, ch ≠ '$') :
    (processLine runner file 2 inh [("A", "1")] "B=$[cmd]".data).1 =
      insertEnv [("A", "1")] "B" (String.mk (trimSuffixNewline out.data)) := by
  have hout' : runner (String.mk "cmd".data)
      (mapToSlice (mergeMaps inh [("A", "1")])) = Except.ok out := hout
  have htrimnd : ∀ ch ∈ trimSuffixNewline out.data, ch ≠ '$' :=
    fun ch hch => hnd ch (trimSuffixNewline_subset ch hch)
  have ht : trimSpace "B=$[cmd]".data = "B=$[cmd]".data := by decide
  have hsplit : splitFirst '=' "B=$[cmd]".data = some (['B'], "$[cmd]".data) := by decide
  have h1 : trimSpace ['B'] = ['B'] := by decide
  have h2 : trimSpace "$[cmd]".data = "$[cmd]".data := by decide
  have h3 : unquoteValue file 2 "$[cmd]".data = ("$[cmd]".data, []) := rfl
  have h4 : replaceAllStr escapedDollar literalDollarPlaceholder "$[cmd]".data =
      "$[cmd]".data := by decide
  have h5 : expandVarsInString "$[cmd]".data (mergeMaps inh [("A", "1")]) =
      "$[cmd]".data := by
    have hid : matchVarRef "[cmd]".data = none := by decide
    rw [show ("$[cmd]".data : Str) = '$' :: "[cmd]".data from rfl]
    show expandVarsGo _ ('$' :: "[cmd]".data).length _ = _
    rw [List.length_cons]
    simp [expandVarsGo, hid, expandVarsGo_no_dollar _
      (show ∀ c ∈ ("[cmd]".data : Str), c ≠ '$' by decide)]
  have h6 : gopassSubstitution runner (String.mk ['B']) file 2 inh [("A", "1")]
      (mergeMaps inh [("A", "1")]) "$[cmd]".data = ("$[cmd]".data, []) := by
    have hpre : gopassHead.isPrefixOf ('$' :: "[cmd]".data) = false := by decide
    rw [show ("$[cmd]".data : Str) = '$' :: "[cmd]".data from rfl]
    show gopassGo _ _ _ _ _ _ _ ('$' :: "[cmd]".data).length _ = _
    rw [List.length_cons]
    exact gopassGo_dollar_no_trigger _ hpre
      (show ∀ c ∈ ("[cmd]".data : Str), c ≠ '$' by decide)
  have hexp : expandVarsInString (trimSuffixNewline out.data)
      (mergeMaps inh [("A", "1")]) = trimSuffixNewline out.data :=
    expandVarsGo_no_dollar _ htrimnd
  have h7 : applyBracketSubstitution runner (String.mk ['B']) file 2 inh [("A", "1")]
      (mergeMaps inh [("A", "1")]) "$[cmd]".data =
      (trimSuffixNewline out.data,
        if (trimSuffixNewline out.data).isEmpty then
          [Warning.commandEmpty file 2 (String.mk ['B']) (String.mk "cmd".data)]
        else []) := by
    rw [show ("$[cmd]".data : Str) = '$' :: '[' :: ("cmd".data ++ [']']) from rfl,
      applyBracketSubstitution_single runner (String.mk ['B']) file 2 inh [("A", "1")]
        (mergeMaps inh [("A", "1")]) (by decide) (by decide),
      commandSubstOne, executeCommandSubstitution, hout']
    simp only [hexp]
    split <;> rfl
  have h8 : applyParenSubstitution runner (String.mk ['B']) file 2 inh [("A", "1")]
      (mergeMaps inh [("A", "1")]) (trimSuffixNewline out.data) =
      (trimSuffixNewline out.data, []) :=
    cmdSubGo_no_dollar _ htrimnd
  rw [processLine, ht, if_neg (by decide), hsplit]
  simp only [h1, h2, h3, h4, h5, h6, h7, h8]

/-- The value pipeline applied by `parseEnvFile` to a split line: trim key
and value, quote handling, replacement of `\$` by the placeholder, then the
four substitution passes in order, ending in the map assignment.  This is
the body of `processLine` after the split; both are translated from the
same loop body of the source. -/
def processValuePipeline (runner : Runner) (file : String) (lineNum : Nat)
    (inheritedEnvMap initialEnvMap : EnvMap) (rawKey rawValue : Str) :
    EnvMap × List Warning :=
  let key := String.mk (trimSpace rawKey)
  let value0 := trimSpace rawValue
  let uq := unquoteValue file lineNum value0
  let value1 := replaceAllStr escapedDollar literalDollarPlaceholder uq.1
  let scope := mergeMaps inheritedEnvMap initialEnvMap
  let value2 := expandVarsInString value1 scope
  let g := gopassSubstitution runner key file lineNum inheritedEnvMap initialEnvMap
    scope value2
  let b := applyBracketSubstitution runner key file lineNum inheritedEnvMap initialEnvMap
    scope g.1
  let pr := applyParenSubstitution runner key file lineNum inheritedEnvMap initialEnvMap
    scope b.1
  (insertEnv initialEnvMap key (String.mk pr.1), uq.2 ++ g.2 ++ b.2 ++ pr.2)

theorem parseEnvFile_single (runner : Runner) (file : String) (inh : EnvMap)
    (l : Str) (m : EnvMap) (w : List Warning)
    (h : processLine runner file 1 inh [] l = (m, w)) :
    parseEnvFile runner file inh [l] = (m, w) := by
  show parseEnvLines runner file inh 1 [] [l] = _
  rw [parseEnvLines_cons, h]
  simp [parseEnvLines_nil]

/-! ## Claim theorems -/

/-- C6: the environment handed to the launch step in sandboxed mode is exactly
the `mapToSlice` of the joint resolved map (so it contains exactly the keys
defined across the chained files), while in default mode it is the
`mapToSlice` of the merge of the full process environment with the joint map,
whose key set is the union of the process keys and the joint keys (a superset
containing every process-inherited key not overridden). -/
theorem c6_sandboxed_vs_default_launch_env (osEnvMap joint : EnvMap) (k : String) :
    envpFor true osEnvMap joint = mapToSlice joint ∧
    envpFor false osEnvMap joint = mapToSlice (mergeMaps osEnvMap joint) ∧
    (k ∈ sortedKeys joint ↔ hasKey joint k = true) ∧
    (k ∈ sortedKeys (mergeMaps osEnvMap joint) ↔
      (hasKey osEnvMap k || hasKey joint k) = true) := by
  refine ⟨rfl, rfl, mem_sortedKeys_iff joint k, ?_⟩
  rw [mem_sortedKeys_iff, hasKey_mergeMaps]

/-- C8: a non-empty, non-comment line with no `=` produces a non-fatal
malformed-line warning naming the file and the line number, and is skipped:
the in-file resolved map is returned unchanged, and resolution continues
(the model's per-file resolution cannot fail on this path). -/
theorem c8_malformed_line_skipped (runner : Runner) (file : String) (lineNum : Nat)
    (inheritedEnvMap initialEnvMap : EnvMap) (rawLine : Str)
    (h1 : trimSpace rawLine ≠ [])
    (h2 : (trimSpace rawLine).head? ≠ some '#')
    (h3 : '=' ∉ trimSpace rawLine) :
    processLine runner file lineNum inheritedEnvMap initialEnvMap rawLine =
      (initialEnvMap,
        [Warning.malformedLine file lineNum (String.mk (trimSpace rawLine))]) := by
  rw [processLine, if_neg (by
    intro hcon
    rcases hcon with hcon | hcon
    · exact h1 (List.isEmpty_iff.mp hcon)
    · exact h2 hcon), splitFirst_not_mem h3]

/-- Witness for C8 at the malformed line `JUST_A_KEY` of the source's own
test suite, on line 2 of a file. -/
theorem c8_malformed_line_skipped_witness :
    processLine (fun _ _ => Except.error "no runner") "f.env" 2 [] [("KEY1", "VAL1")]
        "JUST_A_KEY".data =
      ([("KEY1", "VAL1")], [Warning.malformedLine "f.env" 2 "JUST_A_KEY"]) :=
  c8_malformed_line_skipped (fun _ _ => Except.error "no runner") "f.env" 2 []
    [("KEY1", "VAL1")] "JUST_A_KEY".data (by decide) (by decide) (by decide)

/-- C10: the per-file resolution entry point is a pure function of the file
content, the inherited environment and the injected command runner, so two
runs on equal inputs yield equal resolved maps; and the `KEY=VALUE` listing
derived from any resolved map lists keys in alphabetically sorted order, so
the emitted environment slice is identical across runs. -/
theorem c10_determinism_and_sorted_listing (runner runner' : Runner)
    (file file' : String) (inherited inherited' : EnvMap)
    (content content' : List Str) (m : EnvMap)
    (hr : runner = runner') (hf : file = file') (hi : inherited = inherited')
    (hc : content = content') :
    parseEnvFile runner file inherited content =
      parseEnvFile runner' file' inherited' content' ∧
    List.Sorted (fun a b : String => a ≤ b) (sortedKeys m) ∧
    mapToSlice m = (sortedKeys m).map (fun k => k ++ "=" ++ (lookupEnv m k).getD "") := by
  subst hr hf hi hc
  exact ⟨rfl, List.sorted_insertionSort _ _, rfl⟩

/-- Witness for C10 on a two-key map whose insertion order is reversed
relative to the alphabetical order. -/
theorem c10_determinism_and_sorted_listing_witness :
    parseEnvFile (fun _ _ => Except.error "") "f" [] ["A=1".data] =
      parseEnvFile (fun _ _ => Except.error "") "f" [] ["A=1".data] ∧
    List.Sorted (fun a b : String => a ≤ b) (sortedKeys [("B", "2"), ("A", "1")]) ∧
    mapToSlice [("B", "2"), ("A", "1")] =
      (sortedKeys [("B", "2"), ("A", "1")]).map
        (fun k => k ++ "=" ++ (lookupEnv [("B", "2"), ("A", "1")] k).getD "") :=
  c10_determinism_and_sorted_listing (fun _ _ => Except.error "")
    (fun _ _ => Except.error "") "f" "f" [] [] ["A=1".data] ["A=1".data]
    [("B", "2"), ("A", "1")] rfl rfl rfl rfl

/-- C5: the chain coordinator folds each file's resolved map into the joint
map with later files overriding earlier ones on key collision (the
`mergeMaps` lookup takes the later map's binding when present), and the
inherited environment for each subsequent file is exactly
`mergeMaps(osEnvMap, joint-so-far)`; consequently for chained files
`base` (`X=1`) and `override` (`X=2`) the joint result maps `X` to `2`,
and when `override` defines only `Y` the joint result still maps `X`
to `1`. -/
theorem c5_chain_merge_semantics :
    (∀ (runner : Runner) (os joint inherited : EnvMap) (f : EnvFile)
        (fs : List EnvFile),
      runChainAux runner os joint inherited (f :: fs) =
        ((runChainAux runner os
            (mergeMaps joint (parseEnvFile runner f.name inherited f.lines).1)
            (mergeMaps os
              (mergeMaps joint (parseEnvFile runner f.name inherited f.lines).1))
            fs).1,
          (parseEnvFile runner f.name inherited f.lines).2 ++
            (runChainAux runner os
              (mergeMaps joint (parseEnvFile runner f.name inherited f.lines).1)
              (mergeMaps os
                (mergeMaps joint (parseEnvFile runner f.name inherited f.lines).1))
              fs).2)) ∧
    (∀ (m₁ m₂ : EnvMap) (k : String),
      lookupEnv (mergeMaps m₁ m₂) k =
        match lookupEnv m₂ k with
        | some v => some v
        | none => lookupEnv m₁ k) ∧
    (∀ (runner : Runner) (os : EnvMap),
      lookupEnv (resolveChain runner os
        [⟨"base", ["X=1".data]⟩, ⟨"override", ["X=2".data]⟩]) "X" = some "2" ∧
      lookupEnv (resolveChain runner os
        [⟨"base", ["X=1".data]⟩, ⟨"override", ["Y=3".data]⟩]) "X" = some "1") := by
  refine ⟨fun _ _ _ _ _ _ => rfl, lookupEnv_mergeMaps, fun runner os => ?_⟩
  have hbase : ∀ inh, parseEnvFile runner "base" inh ["X=1".data] = ([("X", "1")], []) :=
    fun inh => parseEnvFile_single_plain runner "base" inh ['X'] ['1']
      (by decide) (by decide) (by decide) (by decide) (by decide) (by decide) (by decide)
      (by decide) (by decide)
  have hov : ∀ inh, parseEnvFile runner "override" inh ["X=2".data] = ([("X", "2")], []) :=
    fun inh => parseEnvFile_single_plain runner "override" inh ['X'] ['2']
      (by decide) (by decide) (by decide) (by decide) (by decide) (by decide) (by decide)
      (by decide) (by decide)
  have hovY : ∀ inh, parseEnvFile runner "override" inh ["Y=3".data] = ([("Y", "3")], []) :=
    fun inh => parseEnvFile_single_plain runner "override" inh ['Y'] ['3']
      (by decide) (by decide) (by decide) (by decide) (by decide) (by decide) (by decide)
      (by decide) (by decide)
  constructor
  · simp only [resolveChain, jointResolved, runChainAux_cons, runChainAux_nil, hbase,
      hov, mergeMaps]
    decide
  · simp only [resolveChain, jointResolved, runChainAux_cons, runChainAux_nil, hbase,
      hovY, mergeMaps]
    decide

/-- C2: variable references are resolved in one pass against the merge of the
inherited environment and the in-file values of strictly earlier lines: a
reference whose name is absent from that lookup scope expands to the empty
string, a present name is spliced verbatim with no re-expansion of the
spliced value, a reference to a key defined only on a later line of the same
file expands to empty (no forward visibility) while the later key still
resolves, and a self-reference on the line defining a key not otherwise in
scope expands to empty — never an error, never an iterative loop. -/
theorem c2_single_pass_variable_resolution :
    (∀ (env : EnvMap) (c : Char) (cs : Str), identStartChar c = true →
      (∀ x ∈ cs, identChar x = true) → lookupEnv env (String.mk (c :: cs)) = none →
      expandVarsInString ('$' :: c :: cs) env = []) ∧
    (∀ (env : EnvMap) (c : Char) (cs : Str) (v : String), identStartChar c = true →
      (∀ x ∈ cs, identChar x = true) → lookupEnv env (String.mk (c :: cs)) = some v →
      expandVarsInString ('$' :: c :: cs) env = v.data) ∧
    (∀ (runner : Runner) (inh : EnvMap), lookupEnv inh "A" = none →
      lookupEnv (parseEnvFile runner "f" inh ["B=${A}".data, "A=1".data]).1 "B" =
        some "" ∧
      lookupEnv (parseEnvFile runner "f" inh ["B=${A}".data, "A=1".data]).1 "A" =
        some "1") ∧
    (∀ (runner : Runner) (inh : EnvMap), lookupEnv inh "MY_VAR" = none →
      lookupEnv (parseEnvFile runner "f" inh ["MY_VAR=$MY_VAR".data]).1 "MY_VAR" =
        some "") := by
  refine ⟨?_, ?_, ?_, ?_⟩
  · intro env c cs hc hcs habs
    rw [expandVarsInString_single_ref env hc hcs]
    simp [habs]
  · intro env c cs v hc hcs hpres
    rw [expandVarsInString_single_ref env hc hcs]
    simp [hpres]
  · intro runner inh habs
    have hB := processLine_forward_ref runner "f" inh habs
    have hA : processLine runner "f" 2 inh [("B", "")] "A=1".data =
        (insertEnv [("B", "")] "A" "1", []) :=
      processLine_plain runner "f" 2 inh [("B", "")] ['A'] ['1']
        (by decide) (by decide) (by decide) (by decide) (by decide) (by decide)
        (by decide) (by decide) (by decide)
    show lookupEnv (parseEnvLines runner "f" inh 1 [] _).1 "B" = some "" ∧
      lookupEnv (parseEnvLines runner "f" inh 1 [] _).1 "A" = some "1"
    simp only [parseEnvLines_cons, parseEnvLines_nil, hB, hA]
    constructor <;> decide
  · intro runner inh habs
    have hM := processLine_self_ref runner "f" inh habs
    show lookupEnv (parseEnvLines runner "f" inh 1 [] _).1 "MY_VAR" = some ""
    simp only [parseEnvLines_cons, parseEnvLines_nil, hM]
    decide

/-- Witness for C2: the absent name `A` in an empty scope, a present name
spliced verbatim (its value `$B` is not re-expanded), and the concrete
forward-reference and self-reference files with an empty inherited
environment. -/
theorem c2_single_pass_variable_resolution_witness :
    expandVarsInString ('$' :: 'A' :: []) [] = [] ∧
    expandVarsInString ('$' :: 'A' :: []) [("A", "$B"), ("B", "x")] = "$B".data ∧
    (lookupEnv (parseEnvFile (fun _ _ => Except.error "") "f" []
        ["B=${A}".data, "A=1".data]).1 "B" = some "" ∧
      lookupEnv (parseEnvFile (fun _ _ => Except.error "") "f" []
        ["B=${A}".data, "A=1".data]).1 "A" = some "1") ∧
    lookupEnv (parseEnvFile (fun _ _ => Except.error "") "f" []
      ["MY_VAR=$MY_VAR".data]).1 "MY_VAR" = some "" := by
  refine ⟨?_, ?_, ?_, ?_⟩
  · exact c2_single_pass_variable_resolution.1 [] 'A' [] (by decide) (by decide)
      (by decide)
  · exact c2_single_pass_variable_resolution.2.1 [("A", "$B"), ("B", "x")] 'A' [] "$B"
      (by decide) (by decide) (by decide)
  · exact c2_single_pass_variable_resolution.2.2.1 (fun _ _ => Except.error "") []
      (by decide)
  · exact c2_single_pass_variable_resolution.2.2.2 (fun _ _ => Except.error "") []
      (by decide)

/-- C9: when one file defines the same key twice, the later line's map
assignment supersedes the earlier binding in the file's resolved map, and
while the later line is being resolved both its variable lookups and the
environment handed to substituted sub-processes see the earlier line's
fully-resolved value: `A=1` followed by `A=$A-2` resolves `A` to `1-2`, and
a command substitution on a line after `A=1` runs with an environment slice
built from `mergeMaps(inherited, {A ↦ 1})`. -/
theorem c9_later_line_overrides_and_sees_earlier :
    (∀ (m : EnvMap) (k v : String), lookupEnv (insertEnv m k v) k = some v) ∧
    (∀ (runner : Runner) (inh : EnvMap),
      lookupEnv (parseEnvFile runner "f" inh ["A=1".data, "A=$A-2".data]).1 "A" =
        some "1-2") ∧
    (∀ (runner : Runner) (inh : EnvMap) (out : String),
      runner "cmd" (mapToSlice (mergeMaps inh [("A", "1")])) = Except.ok out →
      (∀ ch ∈ out.data, ch ≠ '$') →
      lookupEnv (parseEnvFile runner "f" inh ["A=1".data, "B=$[cmd]".data]).1 "B" =
        some (String.mk (trimSuffixNewline out.data))) := by
  refine ⟨lookupEnv_insertEnv_self, ?_, ?_⟩
  · intro runner inh
    have hA1 : processLine runner "f" 1 inh [] "A=1".data = ([("A", "1")], []) :=
      processLine_plain runner "f" 1 inh [] ['A'] ['1']
        (by decide) (by decide) (by decide) (by decide) (by decide) (by decide)
        (by decide) (by decide) (by decide)
    have hA2 := processLine_override_ref runner "f" inh
    show lookupEnv (parseEnvLines runner "f" inh 1 [] _).1 "A" = some "1-2"
    simp only [parseEnvLines_cons, parseEnvLines_nil, hA1, hA2]
    decide
  · intro runner inh out hout hnd
    have hA1 : processLine runner "f" 1 inh [] "A=1".data = ([("A", "1")], []) :=
      processLine_plain runner "f" 1 inh [] ['A'] ['1']
        (by decide) (by decide) (by decide) (by decide) (by decide) (by decide)
        (by decide) (by decide) (by decide)
    have hB := processLine_bracket_cmd runner "f" inh hout hnd
    show lookupEnv (parseEnvLines runner "f" inh 1 [] _).1 "B" = _
    simp only [parseEnvLines_cons, parseEnvLines_nil, hA1, hB]
    exact lookupEnv_insertEnv_self [("A", "1")] "B" (String.mk (trimSuffixNewline out.data))

/-- Witness for C9: overriding insertion, the concrete `A=1` / `A=$A-2` file,
and the bracket command line with a runner that returns `hello` with one
trailing newline. -/
theorem c9_later_line_overrides_and_sees_earlier_witness :
    lookupEnv (insertEnv [("A", "1")] "A" "2") "A" = some "2" ∧
    lookupEnv (parseEnvFile (fun _ _ => Except.error "") "f" []
      ["A=1".data, "A=$A-2".data]).1 "A" = some "1-2" ∧
    lookupEnv (parseEnvFile (fun _ _ => Except.ok "hello\n") "f" []
      ["A=1".data, "B=$[cmd]".data]).1 "B" =
      some (String.mk (trimSuffixNewline ("hello\n" : String).data)) :=
  ⟨c9_later_line_overrides_and_sees_earlier.1 [("A", "1")] "A" "2",
   c9_later_line_overrides_and_sees_earlier.2.1 (fun _ _ => Except.error "") [],
   c9_later_line_overrides_and_sees_earlier.2.2 (fun _ _ => Except.ok "hello\n") []
     "hello\n" rfl (by decide)⟩

/-- C3: after quote handling, every occurrence of backslash-dollar in a
value is replaced by the internal placeholder (none remains), and after the
whole chain is resolved every placeholder occurrence in the joint map is
replaced by a literal dollar: `KEY=\$100` resolves to `$100` in the final
output for any process environment, and no value in the final chain output
contains the placeholder. -/
theorem c3_literal_dollar_placeholder :
    (∀ s : Str, containsSub escapedDollar
      (replaceAllStr escapedDollar literalDollarPlaceholder s) = false) ∧
    (∀ (m : EnvMap) (k : String),
      lookupEnv (restorePlaceholders m) k =
        (lookupEnv m k).map
          (fun v => String.mk (replaceAllStr literalDollarPlaceholder ['$'] v.data))) ∧
    (∀ (runner : Runner) (osEnvMap : EnvMap),
      lookupEnv (resolveChain runner osEnvMap [⟨"f", ["KEY=\\$100".data]⟩]) "KEY" =
        some "$100") ∧
    (∀ (runner : Runner) (osEnvMap : EnvMap) (files : List EnvFile) (k : String)
        (v : String),
      lookupEnv (resolveChain runner osEnvMap files) k = some v →
      containsSub literalDollarPlaceholder v.data = false) := by
  refine ⟨?_, lookupEnv_restorePlaceholders, ?_, ?_⟩
  · intro s
    exact containsSub_replaceAllStr (by decide) (by decide) (by decide) s
  · intro runner osEnvMap
    have hline : ∀ inh, processLine runner "f" 1 inh [] "KEY=\\$100".data =
        ([(String.mk "KEY".data,
            String.mk (literalDollarPlaceholder ++ "100".data))], []) := by
      intro inh
      have ht : trimSpace "KEY=\\$100".data = "KEY=\\$100".data := by decide
      have hsplit : splitFirst '=' "KEY=\\$100".data =
          some ("KEY".data, "\\$100".data) := by decide
      have h1 : trimSpace "KEY".data = "KEY".data := by decide
      have h2 : trimSpace "\\$100".data = "\\$100".data := by decide
      have h3 : unquoteValue "f" 1 "\\$100".data = ("\\$100".data, []) := rfl
      have h4 : replaceAllStr escapedDollar literalDollarPlaceholder "\\$100".data =
          literalDollarPlaceholder ++ "100".data := by decide
      have hnd : ∀ c ∈ (literalDollarPlaceholder ++ "100".data : Str), c ≠ '$' := by
        decide
      have h5 : expandVarsInString (literalDollarPlaceholder ++ "100".data)
          (mergeMaps inh []) = literalDollarPlaceholder ++ "100".data :=
        expandVarsGo_no_dollar _ hnd
      have h6 : gopassSubstitution runner (String.mk "KEY".data) "f" 1 inh []
          (mergeMaps inh []) (literalDollarPlaceholder ++ "100".data) =
          (literalDollarPlaceholder ++ "100".data, []) := gopassGo_no_dollar _ hnd
      have h7 : applyBracketSubstitution runner (String.mk "KEY".data) "f" 1 inh []
          (mergeMaps inh []) (literalDollarPlaceholder ++ "100".data) =
          (literalDollarPlaceholder ++ "100".data, []) := cmdSubGo_no_dollar _ hnd
      have h8 : applyParenSubstitution runner (String.mk "KEY".data) "f" 1 inh []
          (mergeMaps inh []) (literalDollarPlaceholder ++ "100".data) =
          (literalDollarPlaceholder ++ "100".data, []) := cmdSubGo_no_dollar _ hnd
      rw [processLine, ht, if_neg (by decide), hsplit]
      simp only [h1, h2, h3, h4, h5, h6, h7, h8]
      rfl
    have hfile : ∀ inh, parseEnvFile runner "f" inh ["KEY=\\$100".data] =
        ([(String.mk "KEY".data,
            String.mk (literalDollarPlaceholder ++ "100".data))], []) :=
      fun inh => parseEnvFile_single runner "f" inh _ _ _ (hline inh)
    simp only [resolveChain, jointResolved, runChainAux_cons, runChainAux_nil, hfile,
      mergeMaps]
    decide
  · intro runner osEnvMap files k v h
    rw [resolveChain, lookupEnv_restorePlaceholders] at h
    obtain ⟨v₀, _, hfv⟩ := Option.map_eq_some'.mp h
    subst hfv
    exact containsSub_replaceAllStr (by decide) (by decide) (by decide) v₀.data

/-- Witness for C3's placeholder-freedom conjunct at the concrete
`KEY=\$100` chain (its final value `$100` is placeholder-free). -/
theorem c3_literal_dollar_placeholder_witness :
    lookupEnv (resolveChain (fun _ _ => Except.error "") []
      [⟨"f", ["KEY=\\$100".data]⟩]) "KEY" = some "$100" ∧
    containsSub literalDollarPlaceholder ("$100" : String).data = false :=
  ⟨c3_literal_dollar_placeholder.2.2.1 (fun _ _ => Except.error "") [],
   c3_literal_dollar_placeholder.2.2.2 (fun _ _ => Except.error "") []
     [⟨"f", ["KEY=\\$100".data]⟩] "KEY" "$100"
     (c3_literal_dollar_placeholder.2.2.1 (fun _ _ => Except.error "") [])⟩

/-- C1: every parsed line's value goes through the fixed four-pass pipeline —
variable-reference expansion, then gopass substitution, then bracket-form
command substitution, then parenthesis-form command substitution — each pass
consuming the previous pass's output (after quote handling and the
placeholder substitution), and each of the three command forms re-runs
variable-reference expansion on its own captured output (trailing newline
trimmed) before splicing it into the value. -/
theorem c1_fixed_pass_order :
    (∀ (runner : Runner) (file : String) (lineNum : Nat)
        (inheritedEnvMap initialEnvMap : EnvMap) (rawLine k0 v0 : Str),
      (trimSpace rawLine).isEmpty = false →
      (trimSpace rawLine).head? ≠ some '#' →
      splitFirst '=' (trimSpace rawLine) = some (k0, v0) →
      processLine runner file lineNum inheritedEnvMap initialEnvMap rawLine =
        processValuePipeline runner file lineNum inheritedEnvMap initialEnvMap k0 v0) ∧
    (∀ (runner : Runner) (file : String) (lineNum : Nat)
        (inheritedEnvMap initialEnvMap : EnvMap) (rawKey rawValue : Str),
      (processValuePipeline runner file lineNum inheritedEnvMap initialEnvMap
          rawKey rawValue).1 =
        insertEnv initialEnvMap (String.mk (trimSpace rawKey))
          (String.mk
            (applyParenSubstitution runner (String.mk (trimSpace rawKey)) file lineNum
              inheritedEnvMap initialEnvMap (mergeMaps inheritedEnvMap initialEnvMap)
              (applyBracketSubstitution runner (String.mk (trimSpace rawKey)) file
                lineNum inheritedEnvMap initialEnvMap
                (mergeMaps inheritedEnvMap initialEnvMap)
                (gopassSubstitution runner (String.mk (trimSpace rawKey)) file lineNum
                  inheritedEnvMap initialEnvMap
                  (mergeMaps inheritedEnvMap initialEnvMap)
                  (expandVarsInString
                    (replaceAllStr escapedDollar literalDollarPlaceholder
                      (unquoteValue file lineNum (trimSpace rawValue)).1)
                    (mergeMaps inheritedEnvMap initialEnvMap))).1).1).1)) ∧
    (∀ (runner : Runner) (key file : String) (lineNum : Nat)
        (inherited initial scope : EnvMap) (cmd : Str) (out : String),
      cmd ≠ [] → ']' ∉ cmd →
      runner (String.mk cmd) (mapToSlice (mergeMaps inherited initial)) =
        Except.ok out →
      (applyBracketSubstitution runner key file lineNum inherited initial scope
        ('$' :: '[' :: (cmd ++ [']']))).1 =
        expandVarsInString (trimSuffixNewline out.data) scope) ∧
    (∀ (runner : Runner) (key file : String) (lineNum : Nat)
        (inherited initial scope : EnvMap) (cmd : Str) (out : String),
      cmd ≠ [] → ')' ∉ cmd →
      runner (String.mk cmd) (mapToSlice (mergeMaps inherited initial)) =
        Except.ok out →
      (applyParenSubstitution runner key file lineNum inherited initial scope
        ('$' :: '(' :: (cmd ++ [')']))).1 =
        expandVarsInString (trimSuffixNewline out.data) scope) ∧
    (∀ (runner : Runner) (key file : String) (lineNum : Nat)
        (inherited initial scope : EnvMap) (p₀ : Char) (P' : Str) (out : String),
      isRegexSpace p₀ = false → p₀ ≠ '-' → ')' ∉ p₀ :: P' →
      runner ("gopass show --password " ++ String.mk (p₀ :: P'))
        (mapToSlice (mergeMaps inherited initial)) = Except.ok out →
      (gopassSubstitution runner key file lineNum inherited initial scope
        ('$' :: '(' :: 'g' :: 'o' :: 'p' :: 'a' :: 's' :: 's' ::
          ((" show ".data ++ p₀ :: P') ++ [')']))).1 =
        expandVarsInString (trimSuffixNewline out.data) scope) := by
  refine ⟨?_, ?_, ?_, ?_, ?_⟩
  · intro runner file lineNum inh init rawLine k0 v0 hne hhash hsplit
    rw [processLine, if_neg (by
      intro hcon
      rcases hcon with hcon | hcon
      · rw [hne] at hcon; exact Bool.false_ne_true hcon
      · exact hhash hcon), hsplit]
    rfl
  · intro runner file lineNum inh init rawKey rawValue
    rfl
  · intro runner key file lineNum inherited initial scope cmd out hcmd hnc hout
    rw [applyBracketSubstitution_single runner key file lineNum inherited initial scope
      hcmd hnc, commandSubstOne, executeCommandSubstitution, hout]
    dsimp only
    split <;> rfl
  · intro runner key file lineNum inherited initial scope cmd out hcmd hnc hout
    rw [applyParenSubstitution_single runner key file lineNum inherited initial scope
      hcmd hnc, commandSubstOne, executeCommandSubstitution, hout]
    dsimp only
    split <;> rfl
  · intro runner key file lineNum inherited initial scope p₀ P' out hsp hdash hnp hout
    have hu : (" show ".data ++ p₀ :: P' : Str) ≠ [] := fun h => by
      simpa using congrArg List.length h
    have hnp' : ')' ∉ (" show ".data ++ p₀ :: P' : Str) := by
      intro hmem
      rcases List.mem_append.mp hmem with hmem | hmem
      · exact absurd hmem (by decide)
      · exact hnp hmem
    have hcap : gopassCapture (" show ".data ++ p₀ :: P') = p₀ :: P' :=
      gopassCapture_show P' hsp hdash
    rw [gopassSubstitution_single runner key file lineNum inherited initial scope hu
      hnp', hcap, gopassSubstOne, executeCommandSubstitution, hout]
    dsimp only
    split <;> rfl

/-- Witness for C1 at concrete inputs: the line `K=v` runs the pipeline, and
each of the three command forms re-expands its command output `$A` against
the scope `{A ↦ 1}`. -/
theorem c1_fixed_pass_order_witness :
    processLine (fun _ _ => Except.ok "o") "f" 1 [] [] "K=v".data =
      processValuePipeline (fun _ _ => Except.ok "o") "f" 1 [] [] ['K'] ['v'] ∧
    (applyBracketSubstitution (fun _ _ => Except.ok "$A") "K" "f" 1 [] [] [("A", "1")]
      ('$' :: '[' :: ("c".data ++ [']']))).1 =
      expandVarsInString (trimSuffixNewline ("$A" : String).data) [("A", "1")] ∧
    (applyParenSubstitution (fun _ _ => Except.ok "$A") "K" "f" 1 [] [] [("A", "1")]
      ('$' :: '(' :: ("c".data ++ [')']))).1 =
      expandVarsInString (trimSuffixNewline ("$A" : String).data) [("A", "1")] ∧
    (gopassSubstitution (fun _ _ => Except.ok "$A") "K" "f" 1 [] [] [("A", "1")]
      ('$' :: '(' :: 'g' :: 'o' :: 'p' :: 'a' :: 's' :: 's' ::
        ((" show ".data ++ 'p' :: "th".data) ++ [')']))).1 =
      expandVarsInString (trimSuffixNewline ("$A" : String).data) [("A", "1")] :=
  ⟨c1_fixed_pass_order.1 (fun _ _ => Except.ok "o") "f" 1 [] [] "K=v".data ['K'] ['v']
    (by decide) (by decide) (by decide),
   c1_fixed_pass_order.2.2.1 (fun _ _ => Except.ok "$A") "K" "f" 1 [] [] [("A", "1")]
    "c".data "$A" (by decide) (by decide) rfl,
   c1_fixed_pass_order.2.2.2.1 (fun _ _ => Except.ok "$A") "K" "f" 1 [] [] [("A", "1")]
    "c".data "$A" (by decide) (by decide) rfl,
   c1_fixed_pass_order.2.2.2.2 (fun _ _ => Except.ok "$A") "K" "f" 1 [] [] [("A", "1")]
    'p' "th".data "$A" (by decide) (by decide) (by decide) rfl⟩

theorem gopassSubstOne_eq (runner : Runner) (key file : String) (lineNum : Nat)
    (inherited initial scope : EnvMap) (path : Str) :
    gopassSubstOne runner key file lineNum inherited initial scope path =
      (match runner ("gopass show --password " ++ String.mk path)
          (mapToSlice (mergeMaps inherited initial)) with
       | Except.error msg => ([], [Warning.gopassFailed file lineNum key msg])
       | Except.ok out =>
         (expandVarsInString (trimSuffixNewline out.data) scope,
          if (expandVarsInString (trimSuffixNewline out.data) scope).isEmpty then
            [Warning.gopassEmpty file lineNum key (String.mk path)]
          else [])) := by
  rw [gopassSubstOne, executeCommandSubstitution]
  cases hr : runner ("gopass show --password " ++ String.mk path)
      (mapToSlice (mergeMaps inherited initial)) with
  | error msg => rfl
  | ok out =>
    dsimp only
    split <;> rfl

/-- C4: a value of the secret-lookup form `$(gopass [show] PATH [flags])` is
replaced by the captured stdout of running the canonicalized command
`gopass show --password PATH` through the injected runner with the
environment slice `mapToSlice (mergeMaps inherited current)`, one trailing
newline trimmed and variable references in the output expanded against the
line's lookup scope; on a runner error the replacement is the empty string
with a failure warning, and an empty (re-expanded) output yields an
empty-output warning — the per-file resolution never fails for this reason.
The first conjunct is the `show` form, the second the form without `show`,
the third a concrete flagged form whose flag is canonicalized away. -/
theorem c4_gopass_secret_lookup :
    (∀ (runner : Runner) (key file : String) (lineNum : Nat)
        (inherited initial scope : EnvMap) (p₀ : Char) (P' : Str),
      isRegexSpace p₀ = false → p₀ ≠ '-' → ')' ∉ p₀ :: P' →
      gopassSubstitution runner key file lineNum inherited initial scope
        ('$' :: '(' :: 'g' :: 'o' :: 'p' :: 'a' :: 's' :: 's' ::
          ((" show ".data ++ p₀ :: P') ++ [')'])) =
        (match runner ("gopass show --password " ++ String.mk (p₀ :: P'))
            (mapToSlice (mergeMaps inherited initial)) with
         | Except.error msg => ([], [Warning.gopassFailed file lineNum key msg])
         | Except.ok out =>
           (expandVarsInString (trimSuffixNewline out.data) scope,
            if (expandVarsInString (trimSuffixNewline out.data) scope).isEmpty then
              [Warning.gopassEmpty file lineNum key (String.mk (p₀ :: P'))]
            else []))) ∧
    (∀ (runner : Runner) (key file : String) (lineNum : Nat)
        (inherited initial scope : EnvMap) (p₀ : Char) (P' : Str),
      isRegexSpace p₀ = false → p₀ ≠ '-' → ')' ∉ p₀ :: P' →
      ¬ ("show".data).isPrefixOf (p₀ :: P') = true →
      gopassSubstitution runner key file lineNum inherited initial scope
        ('$' :: '(' :: 'g' :: 'o' :: 'p' :: 'a' :: 's' :: 's' ::
          ((' ' :: p₀ :: P') ++ [')'])) =
        (match runner ("gopass show --password " ++ String.mk (p₀ :: P'))
            (mapToSlice (mergeMaps inherited initial)) with
         | Except.error msg => ([], [Warning.gopassFailed file lineNum key msg])
         | Except.ok out =>
           (expandVarsInString (trimSuffixNewline out.data) scope,
            if (expandVarsInString (trimSuffixNewline out.data) scope).isEmpty then
              [Warning.gopassEmpty file lineNum key (String.mk (p₀ :: P'))]
            else []))) ∧
    (∀ (runner : Runner) (key file : String) (lineNum : Nat)
        (inherited initial scope : EnvMap),
      gopassSubstitution runner key file lineNum inherited initial scope
        "$(gopass show -c my/path)".data =
        (match runner "gopass show --password my/path"
            (mapToSlice (mergeMaps inherited initial)) with
         | Except.error msg => ([], [Warning.gopassFailed file lineNum key msg])
         | Except.ok out =>
           (expandVarsInString (trimSuffixNewline out.data) scope,
            if (expandVarsInString (trimSuffixNewline out.data) scope).isEmpty then
              [Warning.gopassEmpty file lineNum key "my/path"]
            else []))) := by
  refine ⟨?_, ?_, ?_⟩
  · intro runner key file lineNum inherited initial scope p₀ P' hsp hdash hnp
    have hu : (" show ".data ++ p₀ :: P' : Str) ≠ [] := fun h => by
      simpa using congrArg List.length h
    have hnp' : ')' ∉ (" show ".data ++ p₀ :: P' : Str) := by
      intro hmem
      rcases List.mem_append.mp hmem with hmem | hmem
      · exact absurd hmem (by decide)
      · exact hnp hmem
    have hcap : gopassCapture (" show ".data ++ p₀ :: P') = p₀ :: P' :=
      gopassCapture_show P' hsp hdash
    rw [gopassSubstitution_single runner key file lineNum inherited initial scope hu
      hnp', hcap, gopassSubstOne_eq]
  · intro runner key file lineNum inherited initial scope p₀ P' hsp hdash hnp hshow
    have hu : (' ' :: p₀ :: P' : Str) ≠ [] := by simp
    have hnp' : ')' ∉ (' ' :: p₀ :: P' : Str) := by
      intro hmem
      rcases List.mem_cons.mp hmem with hmem | hmem
      · exact absurd hmem (by decide)
      · exact hnp hmem
    have hcap : gopassCapture (' ' :: p₀ :: P') = p₀ :: P' :=
      gopassCapture_plain P' hsp hdash hshow
    rw [gopassSubstitution_single runner key file lineNum inherited initial scope hu
      hnp', hcap, gopassSubstOne_eq]
  · intro runner key file lineNum inherited initial scope
    rw [show ("$(gopass show -c my/path)".data : Str) =
      '$' :: '(' :: 'g' :: 'o' :: 'p' :: 'a' :: 's' :: 's' ::
        (" show -c my/path".data ++ [')']) from rfl]
    have hcap : gopassCapture " show -c my/path".data = "my/path".data := by decide
    rw [gopassSubstitution_single runner key file lineNum inherited initial scope
      (by decide) (by decide), hcap, gopassSubstOne_eq]
    have hcmd : ("gopass show --password " ++ String.mk "my/path".data) =
      "gopass show --password my/path" := rfl
    have hpath : (String.mk "my/path".data) = "my/path" := rfl
    rw [hcmd, hpath]

/-- Witness for C4: a runner that answers the canonical command
`gopass show --password my/db` with `s3cr3t` plus one trailing newline (the
substitution yields `s3cr3t`), and a failing runner (the substitution yields
the empty string plus a failure warning). -/
theorem c4_gopass_secret_lookup_witness :
    gopassSubstitution
      (fun c _ => if c = "gopass show --password my/db" then Except.ok "s3cr3t\n"
        else Except.error "fail")
      "DB" "f" 1 [] [] []
      ('$' :: '(' :: 'g' :: 'o' :: 'p' :: 'a' :: 's' :: 's' ::
        ((" show ".data ++ 'm' :: "y/db".data) ++ [')'])) =
      (match (fun (c : String) (_ : List String) =>
          if c = "gopass show --password my/db" then Except.ok "s3cr3t\n"
          else Except.error ("fail" : String)) ("gopass show --password " ++
            String.mk ('m' :: "y/db".data)) (mapToSlice (mergeMaps [] [])) with
       | Except.error msg => ([], [Warning.gopassFailed "f" 1 "DB" msg])
       | Except.ok out =>
         (expandVarsInString (trimSuffixNewline out.data) [],
          if (expandVarsInString (trimSuffixNewline out.data) []).isEmpty then
            [Warning.gopassEmpty "f" 1 "DB" (String.mk ('m' :: "y/db".data))]
          else [])) ∧
    gopassSubstitution (fun _ _ => Except.error "boom") "DB" "f" 1 [] [] []
      ('$' :: '(' :: 'g' :: 'o' :: 'p' :: 'a' :: 's' :: 's' ::
        ((' ' :: 'm' :: "y/db".data) ++ [')'])) =
      ([], [Warning.gopassFailed "f" 1 "DB" "boom"]) :=
  ⟨c4_gopass_secret_lookup.1
      (fun c _ => if c = "gopass show --password my/db" then Except.ok "s3cr3t\n"
        else Except.error "fail") "DB" "f" 1 [] [] [] 'm' "y/db".data
      (by decide) (by decide) (by decide),
   c4_gopass_secret_lookup.2.1 (fun _ _ => Except.error "boom") "DB" "f" 1 [] [] []
      'm' "y/db".data (by decide) (by decide) (by decide) (by decide)⟩

/-- C7 (counterexample): the single-quoted value `'a\$b'` does NOT resolve to
the literal text `a\$b` in the final output — the chain resolves `KEY='a\$b'`
to `a$b`, because the top-level `\$`-escape pass runs on the quote-stripped
interior and consumes the backslash. -/
theorem c7_single_quote_counterexample :
    lookupEnv (resolveChain (fun _ _ => Except.error "") []
      [⟨"f", [['K', 'E', 'Y', '=', '\'', 'a', '\\', '$', 'b', '\'']]⟩]) "KEY" =
      some "a$b" ∧
    ("a$b" : String) ≠ "a\\$b" := by
  constructor
  · decide
  · decide

/-- C7 (amended): a single-quoted value has only its outer quotes stripped,
with no escape-sequence interpretation of its interior (the interior is
returned verbatim, e.g. `'a\nb'` keeps a literal backslash-n through the
whole chain); however the separate top-level `\$`-escape pass still applies
to the quote-stripped text, so `'a\$b'` resolves to `a$b` in the final
output. -/
theorem c7_single_quote_amended :
    (∀ (file : String) (lineNum : Nat) (inner : Str),
      unquoteValue file lineNum ('\'' :: (inner ++ ['\''])) = (inner, [])) ∧
    lookupEnv (resolveChain (fun _ _ => Except.error "") []
      [⟨"f", [['K', '=', '\'', 'a', '\\', 'n', 'b', '\'']]⟩]) "K" = some "a\\nb" ∧
    lookupEnv (resolveChain (fun _ _ => Except.error "") []
      [⟨"f", [['K', 'E', 'Y', '=', '\'', 'a', '\\', '$', 'b', '\'']]⟩]) "KEY" =
      some "a$b" := by
  refine ⟨?_, by decide, by decide⟩
  intro file lineNum inner
  have hql : (('\'' : Char) :: (inner ++ ['\''])).getLast? = some '\'' := by
    rw [show ('\'' :: (inner ++ ['\'']) : Str) = ('\'' :: inner) ++ ['\''] from by simp]
    exact List.getLast?_concat _
  rw [unquoteValue, if_neg, if_pos]
  · simp
  · refine ⟨rfl, hql, ?_⟩
    simp
  · intro hcon
    have h1 := hcon.1
    rw [List.head?_cons] at h1
    exact absurd (Option.some.inj h1) (by decide)

end LoadEnv
